import Mathlib

/-!
Verification development for the warehouse game (`ww.py` / `wwgame.py`).

The game state is embedded shallowly:

* an `Actor` records the mutable attributes a `ww.Actor` object carries
  (`_x`, `_y`, the monster heading `_dx`/`_dy`, the throttle `_delay` and
  `_delay_count`, and the player's `dead` flag) plus a `Kind` tag standing
  for the Python class of the object;
* a `Stage` records `_width`, `_height`, the ordered `_actors` list, the
  `_monsters` list and (for the `random.choice` calls of the wanderer
  monsters) an oracle stream of pre-drawn random values.

Python objects are identified by a `Nat` id; the `_actors` list becomes a
`List (Nat × Actor)` and attribute mutation becomes an update of every
entry carrying that id (ids are unique in all states considered).
Recursive method calls (`move` delegation chains, `FreeMonster.move`
re-invoking `step`) are modelled with an explicit fuel parameter; running
out of fuel returns the state unchanged with result `False`, which never
happens at the fuel values used by the theorems.
-/

namespace WW

/-- Kind tags, one per concrete Python class that is instantiated:
`KeyboardPlayer`, `Box`, `StickyBox`, `Wall`, `Monster`, `FreeMonster`,
`BoxMonster`, `Boss`, `Ripper`. -/
inductive Kind where
  | player
  | box
  | stickyBox
  | wall
  | monster
  | freeMonster
  | boxMonster
  | boss
  | ripper
deriving DecidableEq, Repr

/-- The mutable attributes of a `ww.Actor` object, plus its class tag. -/
structure Actor where
  kind : Kind
  x : Int
  y : Int
  dx : Int
  dy : Int
  delayP : Nat
  delayCount : Nat
  dead : Bool
deriving DecidableEq, Repr

/-- The state of a `ww.Stage`: logical dimensions, the `_actors` list
(id, attributes), the `_monsters` list (ids), and the oracle stream that
stands for the successive results of `random.choice([-1,0,1])`. -/
structure Stage where
  width : Int
  height : Int
  actors : List (Nat × Actor)
  monsters : List Nat
  rng : List Int
deriving DecidableEq, Repr

/-- isinstance(actor, Monster): Monster and all its subclasses. -/
def isMonsterK (k : Kind) : Bool :=
  k = Kind.monster || k = Kind.freeMonster || k = Kind.boxMonster ||
    k = Kind.boss || k = Kind.ripper

/-- Stage.is_in_bounds_x. -/
def is_in_bounds_x (s : Stage) (x : Int) : Bool :=
  decide (0 ≤ x) && decide (x < s.width)

/-- Stage.is_in_bounds_y. -/
def is_in_bounds_y (s : Stage) (y : Int) : Bool :=
  decide (0 ≤ y) && decide (y < s.height)

/-- Stage.is_in_bounds. -/
def is_in_bounds (s : Stage) (x y : Int) : Bool :=
  is_in_bounds_x s x && is_in_bounds_y s y

/-- Stage.get_actor: the first actor of the `_actors` list whose position
is `(x, y)`, or none. -/
def get_actor (s : Stage) (x y : Int) : Option (Nat × Actor) :=
  s.actors.find? (fun p => decide (p.2.x = x ∧ p.2.y = y))

/-- Attribute access on the object with the given id (the Python object
itself; `none` if no such object is on the stage). -/
def lookupActor (s : Stage) (i : Nat) : Option Actor :=
  (s.actors.find? (fun p => decide (p.1 = i))).map Prod.snd

/-- Attribute mutation on the object with the given id. -/
def updActor (s : Stage) (i : Nat) (f : Actor → Actor) : Stage :=
  { s with actors := s.actors.map (fun p => if p.1 = i then (p.1, f p.2) else p) }

/-- Actor.set_position. -/
def set_position (s : Stage) (i : Nat) (x y : Int) : Stage :=
  updActor s i (fun a => { a with x := x, y := y })

/-- The assignment `actor.dead = True` performed when a monster collides
with the player or the player walks into a monster. -/
def setDead (s : Stage) (i : Nat) : Stage :=
  updActor s i (fun a => { a with dead := true })

/-- The assignment `self._dx = -self._dx` in Monster.move. -/
def flipDx (s : Stage) (i : Nat) : Stage :=
  updActor s i (fun a => { a with dx := -a.dx })

/-- The assignment `self._dy = -self._dy` in Monster.move. -/
def flipDy (s : Stage) (i : Nat) : Stage :=
  updActor s i (fun a => { a with dy := -a.dy })

/-- Both heading flips of the bounce-off-an-actor branches of Monster.move. -/
def flipBoth (s : Stage) (i : Nat) : Stage :=
  updActor s i (fun a => { a with dx := -a.dx, dy := -a.dy })

/-- The eight neighbour offsets used by Monster.is_dead, in source order. -/
def deadMoves : List (Int × Int) :=
  [(1, 0), (-1, 0), (0, 1), (0, -1), (1, 1), (-1, 1), (1, -1), (-1, -1)]

/-- The four cardinal offsets used by Monster.is_stuck, in source order. -/
def stuckMoves : List (Int × Int) :=
  [(1, 0), (-1, 0), (0, 1), (0, -1)]

/-- One neighbour position lets the monster escape death when it is empty
or holds the player, and is in bounds (the conjunct order of the source's
condition). -/
def escapes (s : Stage) (p : Int × Int) : Bool :=
  (match get_actor s p.1 p.2 with
   | none => true
   | some q => decide (q.2.kind = Kind.player)) && is_in_bounds s p.1 p.2

/-- Monster.is_dead: the loop returns False on the first escaping
neighbour and otherwise falls through to True. -/
def is_dead (s : Stage) (a : Actor) : Bool :=
  !(deadMoves.map (fun m => (a.x + m.1, a.y + m.2))).any (escapes s)

/-- Monster.is_stuck: some cardinal neighbour holds a StickyBox, unless
self is a Boss. -/
def is_stuck (s : Stage) (a : Actor) : Bool :=
  (stuckMoves.map (fun m => (a.x + m.1, a.y + m.2))).any
    (fun p =>
      (match get_actor s p.1 p.2 with
       | none => false
       | some q => decide (q.2.kind = Kind.stickyBox)) && !decide (a.kind = Kind.boss))

/-- Python `list.remove` on `_actors`: drop the first entry with this id. -/
def eraseId : List (Nat × Actor) → Nat → List (Nat × Actor)
  | [], _ => []
  | p :: rest, i => if p.1 = i then rest else p :: eraseId rest i

/-- Stage.remove_actor; `k` is the class of the object passed in (the
`isinstance(actor, Monster)` test). -/
def remove_actor (s : Stage) (i : Nat) (k : Kind) : Stage :=
  if isMonsterK k then
    { s with actors := eraseId s.actors i, monsters := s.monsters.erase i }
  else
    { s with actors := eraseId s.actors i }

/-- Stage.add_actor. -/
def add_actor (s : Stage) (i : Nat) (a : Actor) : Stage :=
  if isMonsterK a.kind then
    { s with actors := s.actors ++ [(i, a)], monsters := s.monsters ++ [i] }
  else
    { s with actors := s.actors ++ [(i, a)] }

/-- Stage.clear: `self._actors.clear()` — only the `_actors` list. -/
def stageClear (s : Stage) : Stage :=
  { s with actors := [] }

/-- One `random.choice([-1,0,1])` draw from the oracle stream. -/
def popRand (s : Stage) : Int × Stage :=
  match s.rng with
  | [] => (0, s)
  | r :: rest => (r, { s with rng := rest })

/-- Actor.delay on the attributes of one actor: wrap the counter and
report whether it reached zero. -/
def delayA (a : Actor) : Actor × Bool :=
  let c := (a.delayCount + 1) % a.delayP
  ({ a with delayCount := c }, decide (c = 0))

/-- Ripper.step's destruction loop, `for actor in self._stage._actors:
if isinstance(actor, StickyBox): self._stage.remove_actor(actor)`:
a Python for-loop walks the list by index while `remove_actor` mutates
it, so after a removal the element shifted into the current slot is
skipped. `i` is the loop index; the fuel is instantiated with the list
length, which bounds the number of iterations. -/
def sweepSticky : Nat → Stage → Nat → Stage
  | 0, s, _ => s
  | fuel + 1, s, i =>
    match s.actors.get? i with
    | none => s
    | some p =>
      if p.2.kind = Kind.stickyBox then
        sweepSticky fuel (remove_actor s p.1 p.2.kind) (i + 1)
      else
        sweepSticky fuel s (i + 1)

mutual

/-- The polymorphic `move(other, dx, dy)` call, dispatched on the class of
the object `selfId` (`(s, false)` when the id is not on the stage, a case
the theorems never exercise).

* `player`: KeyboardPlayer.move — bounds check; empty target relocates;
  a non-Wall occupant is asked to move and the freed cell is taken; a
  remaining Monster occupant sets `self.dead = True` and returns True.
* `box`, `stickyBox`: Box.move — like the player but without the kill
  branch, and the delegated-push path falls through to `return False`.
* `wall`: Wall inherits Actor.move, the unconditional relocation.
* `monster`: Monster.move — refuses pushes, computes the target from the
  stored heading `_dx`/`_dy`, flips the heading on out-of-bounds axes and
  on occupied targets (killing a player occupant), bounces without moving,
  else relocates by the `(dx, dy)` arguments via Actor.move.
* `freeMonster`, `boxMonster`, `boss`, `ripper`: FreeMonster.move (the
  Ripper's copy is textually identical) — refuses pushes; an out-of-bounds
  or occupied non-player target re-invokes `self.step()`; a player
  occupant is killed; else relocates by `(dx, dy)`. -/
def moveA : Nat → Stage → Nat → Nat → Int → Int → Stage × Bool
  | 0, s, _, _, _, _ => (s, false)
  | fuel + 1, s, selfId, otherId, dx, dy =>
    match lookupActor s selfId with
    | none => (s, false)
    | some a =>
      match a.kind with
      | Kind.player =>
        let nx := a.x + dx
        let ny := a.y + dy
        if is_in_bounds s nx ny then
          match get_actor s nx ny with
          | none => (set_position s selfId nx ny, true)
          | some occ =>
            if occ.2.kind = Kind.wall then (s, false)
            else
              let s1 := (moveA fuel s occ.1 selfId dx dy).1
              match get_actor s1 nx ny with
              | none => (set_position s1 selfId nx ny, true)
              | some occ2 =>
                if isMonsterK occ2.2.kind then (setDead s1 selfId, true)
                else (s1, false)
        else (s, false)
      | Kind.box =>
        let nx := a.x + dx
        let ny := a.y + dy
        if is_in_bounds s nx ny then
          match get_actor s nx ny with
          | none => (set_position s selfId nx ny, true)
          | some occ =>
            if occ.2.kind = Kind.wall then (s, false)
            else
              let s1 := (moveA fuel s occ.1 selfId dx dy).1
              match get_actor s1 nx ny with
              | none => (set_position s1 selfId nx ny, false)
              | some _ => (s1, false)
        else (s, false)
      | Kind.stickyBox =>
        let nx := a.x + dx
        let ny := a.y + dy
        if is_in_bounds s nx ny then
          match get_actor s nx ny with
          | none => (set_position s selfId nx ny, true)
          | some occ =>
            if occ.2.kind = Kind.wall then (s, false)
            else
              let s1 := (moveA fuel s occ.1 selfId dx dy).1
              match get_actor s1 nx ny with
              | none => (set_position s1 selfId nx ny, false)
              | some _ => (s1, false)
        else (s, false)
      | Kind.wall => (set_position s selfId (a.x + dx) (a.y + dy), true)
      | Kind.monster =>
        if otherId ≠ selfId then (s, false)
        else
          let nx := a.x + a.dx
          let ny := a.y + a.dy
          let occ := get_actor s nx ny
          let bx := !is_in_bounds_x s nx
          let bY := !is_in_bounds_y s ny
          let s1 := if bx then flipDx s selfId else s
          let s2 := if bY then flipDy s1 selfId else s1
          match occ with
          | some op =>
            if op.2.kind = Kind.player then (setDead (flipBoth s2 selfId) op.1, true)
            else (flipBoth s2 selfId, true)
          | none =>
            if bx || bY then (s2, false)
            else (set_position s2 selfId (a.x + dx) (a.y + dy), true)
      | _ =>
        if otherId ≠ selfId then (s, false)
        else
          let nx := a.x + dx
          let ny := a.y + dy
          let occ := get_actor s nx ny
          if !is_in_bounds s nx ny then (stepA fuel s selfId, true)
          else
            match occ with
            | some op =>
              if op.2.kind = Kind.player then (setDead s op.1, true)
              else (stepA fuel s selfId, true)
            | none => (set_position s selfId nx ny, true)

/-- The polymorphic `step()` call for the monster classes (for every other
class `Actor.step` is `pass`; the player's step is driven by keyboard
input, which is outside the modelled core). The alive-and-unstuck branch
wraps the throttle counter and, when it reaches zero, self-moves: the
Patrol monster by its stored heading, the wanderer family by two fresh
oracle draws. A stuck live monster does nothing; a dead one is removed
from the stage (and the Ripper then runs its StickyBox destruction
sweep). -/
def stepA : Nat → Stage → Nat → Stage
  | 0, s, _ => s
  | fuel + 1, s, selfId =>
    match lookupActor s selfId with
    | none => s
    | some a =>
      match a.kind with
      | Kind.monster =>
        if !is_dead s a && !is_stuck s a then
          let c := (a.delayCount + 1) % a.delayP
          let s1 := updActor s selfId (fun b => { b with delayCount := c })
          if c ≠ 0 then s1
          else (moveA fuel s1 selfId selfId a.dx a.dy).1
        else if is_stuck s a && !is_dead s a then s
        else remove_actor s selfId a.kind
      | Kind.freeMonster | Kind.boxMonster | Kind.boss =>
        if !is_dead s a && !is_stuck s a then
          let c := (a.delayCount + 1) % a.delayP
          let s1 := updActor s selfId (fun b => { b with delayCount := c })
          if c ≠ 0 then s1
          else
            let r1 := popRand s1
            let r2 := popRand r1.2
            (moveA fuel r2.2 selfId selfId r1.1 r2.1).1
        else if is_stuck s a && !is_dead s a then s
        else remove_actor s selfId a.kind
      | Kind.ripper =>
        if !is_dead s a && !is_stuck s a then
          let c := (a.delayCount + 1) % a.delayP
          let s1 := updActor s selfId (fun b => { b with delayCount := c })
          if c ≠ 0 then s1
          else
            let r1 := popRand s1
            let r2 := popRand r1.2
            (moveA fuel r2.2 selfId selfId r1.1 r2.1).1
        else if is_stuck s a && !is_dead s a then s
        else
          let s1 := remove_actor s selfId a.kind
          sweepSticky s1.actors.length s1 0
      | _ => s

end

/-! ## Stage invariants -/

/-- Any two distinct entries of the `_actors` list occupy different cells. -/
def PosOk (s : Stage) : Prop :=
  s.actors.Pairwise (fun p q => p.2.x ≠ q.2.x ∨ p.2.y ≠ q.2.y)

/-- Object ids occur at most once in the `_actors` list. -/
def IdsOk (s : Stage) : Prop :=
  (s.actors.map Prod.fst).Nodup

/-- The stage invariant the occupancy claims are about. -/
def Inv (s : Stage) : Prop :=
  IdsOk s ∧ PosOk s

instance (s : Stage) : Decidable (PosOk s) := List.instDecidablePairwise _
instance (s : Stage) : Decidable (IdsOk s) := List.instDecidablePairwise _
instance (s : Stage) : Decidable (Inv s) := instDecidableAnd

/-! ## Lookup lemmas -/

theorem get_actor_mem {s : Stage} {x y : Int} {p : Nat × Actor}
    (h : get_actor s x y = some p) : p ∈ s.actors ∧ p.2.x = x ∧ p.2.y = y := by
  refine ⟨List.mem_of_find?_eq_some h, ?_⟩
  have h2 := List.find?_some h
  exact of_decide_eq_true h2

theorem get_actor_eq_none {s : Stage} {x y : Int} :
    get_actor s x y = none ↔ ∀ p ∈ s.actors, ¬(p.2.x = x ∧ p.2.y = y) := by
  unfold get_actor
  rw [List.find?_eq_none]
  constructor
  · intro h p hp
    exact of_decide_eq_false (Bool.not_eq_true _ ▸ h p hp)
  · intro h p hp
    exact (Bool.not_eq_true _).symm ▸ decide_eq_false (h p hp)

theorem listIdInj {l : List (Nat × Actor)} (hs : (l.map Prod.fst).Nodup)
    {p q : Nat × Actor} (hp : p ∈ l) (hq : q ∈ l) (h : p.1 = q.1) : p = q := by
  induction l with
  | nil => simp at hp
  | cons r rest ih =>
    simp only [List.map_cons, List.nodup_cons] at hs
    rcases List.mem_cons.mp hp with h1 | h1 <;> rcases List.mem_cons.mp hq with h2 | h2
    · rw [h1, h2]
    · exfalso
      apply hs.1
      rw [h1] at h
      exact h ▸ List.mem_map.mpr ⟨q, h2, rfl⟩
    · exfalso
      apply hs.1
      rw [h2] at h
      exact h.symm ▸ List.mem_map.mpr ⟨p, h1, rfl⟩
    · exact ih hs.2 h1 h2

theorem idInj {s : Stage} (hs : IdsOk s) {p q : Nat × Actor}
    (hp : p ∈ s.actors) (hq : q ∈ s.actors) (h : p.1 = q.1) : p = q :=
  listIdInj hs hp hq h

theorem listFindId {l : List (Nat × Actor)} (hs : (l.map Prod.fst).Nodup)
    {i : Nat} {a : Actor} (h : (i, a) ∈ l) :
    l.find? (fun p => decide (p.1 = i)) = some (i, a) := by
  induction l with
  | nil => simp at h
  | cons q rest ih =>
    simp only [List.map_cons, List.nodup_cons] at hs
    rcases List.mem_cons.mp h with h1 | h1
    · subst h1
      exact List.find?_cons_of_pos _ (by simp)
    · have hq : ¬(q.1 = i) := by
        intro he
        apply hs.1
        exact he ▸ List.mem_map.mpr ⟨(i, a), h1, rfl⟩
      rw [List.find?_cons_of_neg _ (by simpa using hq)]
      exact ih hs.2 h1

theorem lookup_of_mem {s : Stage} (hs : IdsOk s) {i : Nat} {a : Actor}
    (h : (i, a) ∈ s.actors) : lookupActor s i = some a := by
  unfold lookupActor
  rw [listFindId hs h]
  rfl

theorem listFindPos {l : List (Nat × Actor)}
    (hs : l.Pairwise (fun p q => p.2.x ≠ q.2.x ∨ p.2.y ≠ q.2.y))
    {i : Nat} {a : Actor} (h : (i, a) ∈ l) :
    l.find? (fun p => decide (p.2.x = a.x ∧ p.2.y = a.y)) = some (i, a) := by
  induction l with
  | nil => simp at h
  | cons q rest ih =>
    rw [List.pairwise_cons] at hs
    rcases List.mem_cons.mp h with h1 | h1
    · subst h1
      exact List.find?_cons_of_pos _ (by simp)
    · have hne := hs.1 (i, a) h1
      rw [List.find?_cons_of_neg _ (by
        simp only [decide_eq_true_eq]
        rintro ⟨hx, hy⟩
        rcases hne with h2 | h2
        · exact h2 hx
        · exact h2 hy)]
      exact ih hs.2 h1

theorem get_actor_of_mem {s : Stage} (hs : PosOk s) {i : Nat} {a : Actor}
    (h : (i, a) ∈ s.actors) : get_actor s a.x a.y = some (i, a) :=
  listFindPos hs h

/-! ## Invariant preservation for the elementary mutations -/

theorem updActor_map_fst (s : Stage) (i : Nat) (f : Actor → Actor) :
    (updActor s i f).actors.map Prod.fst = s.actors.map Prod.fst := by
  unfold updActor
  simp only [List.map_map]
  apply List.map_congr_left
  intro p _
  by_cases h : p.1 = i <;> simp [h]

theorem IdsOk_updActor {s : Stage} (hs : IdsOk s) (i : Nat) (f : Actor → Actor) :
    IdsOk (updActor s i f) := by
  unfold IdsOk
  rw [updActor_map_fst]
  exact hs

theorem PosOk_updActor_pres {s : Stage} (hs : PosOk s) (i : Nat) {f : Actor → Actor}
    (hf : ∀ a, (f a).x = a.x ∧ (f a).y = a.y) : PosOk (updActor s i f) := by
  unfold PosOk updActor at *
  simp only
  rw [List.pairwise_map]
  apply hs.imp_of_mem
  intro p q _ _ hpq
  by_cases hp : p.1 = i <;> by_cases hq : q.1 = i <;>
    simp [hp, hq, hf p.2, hf q.2, hpq]

theorem get_actor_updActor_pres {s : Stage} (i : Nat) {f : Actor → Actor}
    (hf : ∀ a, (f a).x = a.x ∧ (f a).y = a.y) (x y : Int) :
    get_actor (updActor s i f) x y = none ↔ get_actor s x y = none := by
  rw [get_actor_eq_none, get_actor_eq_none]
  unfold updActor
  simp only [List.mem_map]
  constructor
  · intro h p hp
    have := h (if p.1 = i then (p.1, f p.2) else p) ⟨p, hp, rfl⟩
    by_cases hc : p.1 = i
    · simpa [hc, hf p.2] using this
    · simpa [hc] using this
  · rintro h q ⟨p, hp, rfl⟩
    by_cases hc : p.1 = i
    · simpa [hc, hf p.2] using h p hp
    · simpa [hc] using h p hp

theorem lookup_updActor (s : Stage) (i j : Nat) (f : Actor → Actor) :
    lookupActor (updActor s i f) j =
      (lookupActor s j).map (fun a => if j = i then f a else a) := by
  unfold lookupActor updActor
  simp only
  induction s.actors with
  | nil => simp
  | cons p rest ih =>
    rw [List.map_cons]
    by_cases hp : p.1 = j
    · by_cases hc : p.1 = i
      · have hij : j = i := by omega
        rw [List.find?_cons_of_pos _ (by simp [hc, hp, hij]),
          List.find?_cons_of_pos _ (by simp [hp])]
        simp [hc, hij]
      · have hij : ¬(j = i) := by omega
        rw [List.find?_cons_of_pos _ (by simp [hc, hp, hij]),
          List.find?_cons_of_pos _ (by simp [hp])]
        simp [hc, hij, hp]
    · by_cases hc : p.1 = i
      · have hij : ¬(i = j) := by omega
        rw [List.find?_cons_of_neg _ (by simp [hc, hp, hij]),
          List.find?_cons_of_neg _ (by simp [hp])]
        exact ih
      · rw [List.find?_cons_of_neg _ (by simp [hc, hp]),
          List.find?_cons_of_neg _ (by simp [hp])]
        exact ih

theorem Inv_set_position_empty {s : Stage} (hs : Inv s) {i : Nat} {x y : Int}
    (hempty : get_actor s x y = none) : Inv (set_position s i x y) := by
  refine ⟨IdsOk_updActor hs.1 _ _, ?_⟩
  have hnone := get_actor_eq_none.mp hempty
  unfold PosOk set_position updActor
  simp only
  rw [List.pairwise_map]
  apply hs.2.imp_of_mem
  intro p q hp hq hpq
  by_cases hcp : p.1 = i <;> by_cases hcq : q.1 = i
  · exfalso
    have := listIdInj hs.1 hp hq (hcp.trans hcq.symm)
    rcases hpq with h | h <;> simp [this] at h
  · have hq2 := hnone q hq
    simp only [hcp, hcq, if_true, if_false]
    by_cases hx : q.2.x = x
    · right
      intro h
      exact hq2 ⟨hx, by simpa using h.symm⟩
    · left
      intro h
      exact hx (by simpa using h.symm)
  · have hp2 := hnone p hp
    simp only [hcp, hcq, if_true, if_false]
    by_cases hx : p.2.x = x
    · right
      intro h
      exact hp2 ⟨hx, by simpa using h⟩
    · left
      intro h
      exact hx (by simpa using h)
  · simpa [hcp, hcq] using hpq

theorem eraseId_sublist (l : List (Nat × Actor)) (i : Nat) :
    (eraseId l i).Sublist l := by
  induction l with
  | nil => simp [eraseId]
  | cons p rest ih =>
    unfold eraseId
    by_cases h : p.1 = i
    · simp only [h, if_true]
      exact List.sublist_cons_self p rest
    · simp only [h, if_false]
      exact ih.cons₂ p

theorem Inv_remove_actor {s : Stage} (hs : Inv s) (i : Nat) (k : Kind) :
    Inv (remove_actor s i k) := by
  have hsub := eraseId_sublist s.actors i
  unfold remove_actor
  by_cases h : isMonsterK k = true <;>
    simp only [h, if_true, if_false, Bool.false_eq_true] <;>
    exact ⟨(hsub.map Prod.fst).nodup hs.1, hs.2.sublist hsub⟩

theorem Inv_sweepSticky {n : Nat} : ∀ {s : Stage} {i : Nat}, Inv s →
    Inv (sweepSticky n s i) := by
  induction n with
  | zero => intro s i hs; exact hs
  | succ m ih =>
    intro s i hs
    unfold sweepSticky
    match h : s.actors.get? i with
    | none => exact hs
    | some p =>
      by_cases hk : p.2.kind = Kind.stickyBox
      · simp only [hk, if_true]
        exact ih (Inv_remove_actor hs _ _)
      · simp only [hk, if_false]
        exact ih hs

theorem Inv_ignores_rest {s t : Stage} (h : s.actors = t.actors) (hs : Inv s) :
    Inv t := by
  unfold Inv IdsOk PosOk at *
  rw [← h]
  exact hs

/-! ## C5: the death-by-encirclement predicate -/

/-- The cell `(x, y)` is empty or holds the Agent. -/
def emptyOrAgent (s : Stage) (x y : Int) : Prop :=
  get_actor s x y = none ∨ ∃ p, get_actor s x y = some p ∧ p.2.kind = Kind.player

theorem escapes_iff (s : Stage) (p : Int × Int) :
    escapes s p = true ↔ emptyOrAgent s p.1 p.2 ∧ is_in_bounds s p.1 p.2 = true := by
  unfold escapes emptyOrAgent
  match h : get_actor s p.1 p.2 with
  | none => simp [h]
  | some q =>
    simp only [h, Bool.and_eq_true, decide_eq_true_eq]
    constructor
    · rintro ⟨hk, hb⟩
      exact ⟨Or.inr ⟨q, rfl, hk⟩, hb⟩
    · rintro ⟨hk, hb⟩
      rcases hk with hk | ⟨r, hr, hk⟩
      · cases hk
      · cases hr
        exact ⟨hk, hb⟩

/-- C5: Monster.is_dead returns True iff no neighbouring cell among the
eight (cardinal plus diagonal) is both in bounds and either empty or
occupied by the Agent; an out-of-bounds neighbour never prevents death. -/
theorem c5_is_dead_iff_no_escape (s : Stage) (a : Actor) :
    is_dead s a = true ↔
      ∀ u v : Int, -1 ≤ u → u ≤ 1 → -1 ≤ v → v ≤ 1 → ¬(u = 0 ∧ v = 0) →
        ¬(is_in_bounds s (a.x + u) (a.y + v) = true ∧
          emptyOrAgent s (a.x + u) (a.y + v)) := by
  unfold is_dead
  rw [Bool.not_eq_true', ← Bool.not_eq_true, List.any_eq_true]
  constructor
  · intro h u v hu1 hu2 hv1 hv2 hnz ⟨hb, he⟩
    apply h
    refine ⟨(a.x + u, a.y + v), ?_, ?_⟩
    · apply List.mem_map.mpr
      refine ⟨(u, v), ?_, rfl⟩
      unfold deadMoves
      have hu : u = -1 ∨ u = 0 ∨ u = 1 := by omega
      have hv : v = -1 ∨ v = 0 ∨ v = 1 := by omega
      rcases hu with rfl | rfl | rfl <;> rcases hv with rfl | rfl | rfl <;>
        simp_all
    · exact (escapes_iff s _).mpr ⟨he, hb⟩
  · rintro h ⟨x, hx, hesc⟩
    rcases List.mem_map.mp hx with ⟨m, hm, rfl⟩
    rw [escapes_iff] at hesc
    unfold deadMoves at hm
    simp only [List.mem_cons, List.not_mem_nil, or_false] at hm
    rcases hm with rfl | rfl | rfl | rfl | rfl | rfl | rfl | rfl <;>
      exact h _ _ (by norm_num) (by norm_num) (by norm_num) (by norm_num)
        (by norm_num) ⟨hesc.2, hesc.1⟩

/-! ## C10: the Patrol monster relocates by the unchecked arguments -/

/-- C10: a self-initiated Monster.move checks bounds and occupancy only
for the cell reached by the stored heading `(_dx, _dy)`; when that cell is
in bounds and empty, the final `Actor.move(self, other, dx, dy)` relocates
the monster by the `(dx, dy)` arguments, which were never bounds- or
occupancy-checked — even when they differ from the stored heading. -/
theorem c10_monster_move_uses_unchecked_args (fuel : Nat) (s : Stage) (i : Nat)
    (a : Actor) (dx dy : Int) (h1 : lookupActor s i = some a)
    (h2 : a.kind = Kind.monster)
    (h3 : is_in_bounds_x s (a.x + a.dx) = true)
    (h4 : is_in_bounds_y s (a.y + a.dy) = true)
    (h5 : get_actor s (a.x + a.dx) (a.y + a.dy) = none)
    (h6 : ¬(dx = a.dx ∧ dy = a.dy)) :
    moveA (fuel + 1) s i i dx dy = (set_position s i (a.x + dx) (a.y + dy), true) := by
  simp [moveA, h1, h2, h3, h4, h5]

/-- The concrete stage for the C10 witness: an otherwise empty 20×20
stage holding one Patrol monster at the origin with heading `(1, 1)`. -/
def stageC10 : Stage :=
  ⟨20, 20, [(0, ⟨Kind.monster, 0, 0, 1, 1, 5, 0, false⟩)], [0], []⟩

theorem c10_witness :
    moveA 3 stageC10 0 0 (-1) (-1) = (set_position stageC10 0 (-1) (-1), true) ∧
    is_in_bounds stageC10 (-1) (-1) = false := by
  constructor
  · exact c10_monster_move_uses_unchecked_args 2 stageC10 0 _ (-1) (-1) rfl rfl
      (by decide) (by decide) (by decide) (by decide)
  · decide

/-! ## C6: Patrol bounce does not relocate -/

/-- The concrete stage for the C6 counterexample: an otherwise empty
20×20 stage holding one Patrol monster at `(19, 5)` with heading `(1, 1)`,
so its move target `(20, 6)` is out of bounds on the x-axis only and
holds no actor. -/
def stageC6 : Stage :=
  ⟨20, 20, [(0, ⟨Kind.monster, 19, 5, 1, 1, 5, 0, false⟩)], [0], []⟩

/-- C6 counterexample: with the target out of bounds on exactly one axis
and unoccupied, Monster.move flips that axis's heading component but the
monster does not relocate on this step — its position is unchanged and
the call returns False, where the claim asserts it still relocates. -/
theorem c6_counterexample :
    moveA 3 stageC6 0 0 1 1 =
      ({ stageC6 with actors := [(0, ⟨Kind.monster, 19, 5, -1, 1, 5, 0, false⟩)] },
       false) := by
  decide

/-- C6 amended: when a self-initiated Patrol move finds its heading
target unoccupied but out of bounds on at least one axis, the monster
inverts each out-of-bounds axis's heading component and does not relocate
at all; the call returns False. (Only when neither axis is out of bounds
does the monster move.) -/
theorem c6_amended_bounce_never_relocates (fuel : Nat) (s : Stage) (i : Nat)
    (a : Actor) (dx dy : Int) (h1 : lookupActor s i = some a)
    (h2 : a.kind = Kind.monster)
    (h5 : get_actor s (a.x + a.dx) (a.y + a.dy) = none)
    (hb : ¬(is_in_bounds_x s (a.x + a.dx) = true ∧
            is_in_bounds_y s (a.y + a.dy) = true)) :
    moveA (fuel + 1) s i i dx dy =
      ((if is_in_bounds_y s (a.y + a.dy) = true then
          (if is_in_bounds_x s (a.x + a.dx) = true then s else flipDx s i)
        else
          flipDy (if is_in_bounds_x s (a.x + a.dx) = true then s else flipDx s i) i),
       false) := by
  by_cases h3 : is_in_bounds_x s (a.x + a.dx) = true <;>
    by_cases h4 : is_in_bounds_y s (a.y + a.dy) = true
  · exact absurd ⟨h3, h4⟩ hb
  all_goals
    simp [moveA, h1, h2, h3, h4, h5]

/-- The concrete stage for the C6 witness: the corner case, heading
`(1, 1)` at `(19, 19)`, both axes out of bounds. -/
def stageC6w : Stage :=
  ⟨20, 20, [(0, ⟨Kind.monster, 19, 19, 1, 1, 5, 0, false⟩)], [0], []⟩

theorem c6_witness :
    moveA 3 stageC6w 0 0 1 1 = (flipDy (flipDx stageC6w 0) 0, false) := by
  have h := c6_amended_bounce_never_relocates 2 stageC6w 0
    ⟨Kind.monster, 19, 19, 1, 1, 5, 0, false⟩ 1 1 rfl rfl (by decide) (by decide)
  simpa using h

/-! ## C7: what the throttle actually gates -/

/-- The concrete stage for the C7 counterexample: a 1×1 stage holding one
Patrol monster, period 5, counter 0. Every neighbouring cell is out of
bounds, so `is_dead` is True. -/
def stageC7 : Stage :=
  ⟨1, 1, [(0, ⟨Kind.monster, 0, 0, 1, 1, 5, 0, false⟩)], [0], []⟩

/-- C7 counterexample: the monster's counter would not wrap on this call
((0+1) % 5 ≠ 0), yet `step` removes the monster from the stage: the death
check is evaluated before the throttle, so a non-wrapping call is not the
no-op the claim asserts. -/
theorem c7_counterexample :
    (0 + 1) % 5 ≠ 0 ∧
    stepA 5 stageC7 0 = { stageC7 with actors := [], monsters := [] } := by
  constructor
  · decide
  · decide

/-- C7 amended: the throttle gates only the movement action. When the
hostile is alive and not immobilized, a call on which the counter does not
wrap changes nothing but the counter itself; but the death check runs on
every call before the throttle, so a dead hostile is removed regardless of
the counter. -/
theorem c7_amended_throttle_gates_only_movement (fuel : Nat) (s : Stage)
    (i : Nat) (a : Actor) (h1 : lookupActor s i = some a)
    (h2 : a.kind = Kind.monster) :
    (is_dead s a = false → is_stuck s a = false →
      (a.delayCount + 1) % a.delayP ≠ 0 →
      stepA (fuel + 1) s i =
        updActor s i (fun b => { b with delayCount := (a.delayCount + 1) % a.delayP })) ∧
    (is_dead s a = true →
      stepA (fuel + 1) s i = remove_actor s i a.kind) := by
  constructor
  · intro hd hst hc
    simp [stepA, h1, h2, hd, hst, hc]
  · intro hd
    simp [stepA, h1, h2, hd]

/-- The concrete stage for the C7 witness: a live, unstuck monster of
period 5 with counter 0 on an otherwise empty 20×20 stage. -/
def stageC7w : Stage :=
  ⟨20, 20, [(0, ⟨Kind.monster, 3, 3, 1, 1, 5, 0, false⟩)], [0], []⟩

theorem c7_witness :
    stepA 4 stageC7w 0 =
      updActor stageC7w 0 (fun b => { b with delayCount := (0 + 1) % 5 }) := by
  exact (c7_amended_throttle_gates_only_movement 3 stageC7w 0
    ⟨Kind.monster, 3, 3, 1, 1, 5, 0, false⟩ rfl rfl).1 (by decide) (by decide)
    (by decide)

/-! ## C8: the Hostile subset versus the live-entity collection -/

/-- The consistency property the claim asserts (stated from the spec's
words): the `_monsters` list holds exactly the ids of the Monster-kind
entries of the `_actors` list. -/
def hostileSync (s : Stage) : Prop :=
  s.monsters = (s.actors.filter (fun p => isMonsterK p.2.kind)).map Prod.fst

instance (s : Stage) : Decidable (hostileSync s) := by
  unfold hostileSync
  infer_instance

/-- C8 counterexample: adding one Monster to an empty consistent stage
and then calling Stage.clear empties `_actors` but leaves the monster's
entry in `_monsters`: the Hostile subset retains a stale id. -/
theorem c8_counterexample :
    ¬ hostileSync
      (stageClear (add_actor ⟨20, 20, [], [], []⟩ 0 ⟨Kind.monster, 3, 3, 1, 1, 5, 0, false⟩)) := by
  decide

theorem eraseId_of_ne {l : List (Nat × Actor)} {i : Nat}
    (h : ∀ p ∈ l, p.1 ≠ i) : eraseId l i = l := by
  induction l with
  | nil => rfl
  | cons q rest ih =>
    unfold eraseId
    rw [if_neg (h q (List.mem_cons_self q rest))]
    rw [ih (fun p hp => h p (List.mem_cons_of_mem q hp))]

theorem filter_eraseId_monster {l : List (Nat × Actor)}
    (hnd : (l.map Prod.fst).Nodup) {i : Nat} {a : Actor} (hmem : (i, a) ∈ l)
    (hk : isMonsterK a.kind = true) :
    ((eraseId l i).filter (fun p => isMonsterK p.2.kind)).map Prod.fst =
      ((l.filter (fun p => isMonsterK p.2.kind)).map Prod.fst).erase i := by
  induction l with
  | nil => simp at hmem
  | cons q rest ih =>
    simp only [List.map_cons, List.nodup_cons] at hnd
    by_cases hq : q.1 = i
    · have hqa : q = (i, a) := by
        rcases List.mem_cons.mp hmem with h1 | h1
        · exact h1.symm
        · exfalso
          exact hnd.1 (hq ▸ List.mem_map.mpr ⟨(i, a), h1, rfl⟩)
      unfold eraseId
      rw [if_pos hq, hqa]
      simp only [List.filter_cons, hk, if_true]
      rw [List.map_cons, List.erase_cons_head]
    · have h1 : (i, a) ∈ rest := by
        rcases List.mem_cons.mp hmem with h2 | h2
        · exact absurd (congrArg Prod.fst h2.symm) hq
        · exact h2
      unfold eraseId
      rw [if_neg hq]
      by_cases hP : isMonsterK q.2.kind = true
      · simp only [List.filter_cons, hP, if_true, List.map_cons]
        rw [List.erase_cons_tail, ih hnd.2 h1]
        simpa using hq
      · simp only [List.filter_cons, hP, Bool.false_eq_true, if_false]
        exact ih hnd.2 h1

theorem filter_eraseId_nonmonster {l : List (Nat × Actor)}
    (hnd : (l.map Prod.fst).Nodup) {i : Nat} {a : Actor} (hmem : (i, a) ∈ l)
    (hk : isMonsterK a.kind = false) :
    (eraseId l i).filter (fun p => isMonsterK p.2.kind) =
      l.filter (fun p => isMonsterK p.2.kind) := by
  induction l with
  | nil => simp at hmem
  | cons q rest ih =>
    simp only [List.map_cons, List.nodup_cons] at hnd
    by_cases hq : q.1 = i
    · have hqa : q = (i, a) := by
        rcases List.mem_cons.mp hmem with h1 | h1
        · exact h1.symm
        · exfalso
          exact hnd.1 (hq ▸ List.mem_map.mpr ⟨(i, a), h1, rfl⟩)
      unfold eraseId
      rw [if_pos hq, hqa]
      simp [List.filter_cons, hk]
    · have h1 : (i, a) ∈ rest := by
        rcases List.mem_cons.mp hmem with h2 | h2
        · exact absurd (congrArg Prod.fst h2.symm) hq
        · exact h2
      unfold eraseId
      rw [if_neg hq]
      simp only [List.filter_cons]
      by_cases hP : isMonsterK q.2.kind = true
      · simp only [hP, if_true]
        rw [ih hnd.2 h1]
      · simp only [hP, Bool.false_eq_true, if_false]
        exact ih hnd.2 h1

/-- C8 amended: add_actor and remove_actor do keep the `_monsters` list
exactly equal to the ids of the Monster-kind entries of `_actors`, but
Stage.clear empties only `_actors` (see the counterexample), so the
consistency survives add/remove sequences only. -/
theorem c8_amended_add_remove_keep_sync :
    (∀ (s : Stage) (i : Nat) (a : Actor), hostileSync s →
      hostileSync (add_actor s i a)) ∧
    (∀ (s : Stage) (i : Nat) (a : Actor), hostileSync s → IdsOk s →
      (i, a) ∈ s.actors → hostileSync (remove_actor s i a.kind)) := by
  constructor
  · intro s i a hs
    unfold hostileSync add_actor at *
    by_cases hk : isMonsterK a.kind = true <;>
      simp [hk, List.filter_append, hs]
  · intro s i a hs hnd hmem
    unfold hostileSync remove_actor at *
    by_cases hk : isMonsterK a.kind = true
    · simp only [hk, if_true]
      rw [filter_eraseId_monster hnd hmem hk, hs]
    · have hk2 : isMonsterK a.kind = false := by
        exact Bool.not_eq_true _ ▸ hk
      simp only [hk, Bool.false_eq_true, if_false]
      rw [filter_eraseId_nonmonster hnd hmem hk2, hs]

/-- The concrete stage for the C8 witness. -/
def stageC8 : Stage := ⟨20, 20, [], [], []⟩

theorem c8_witness :
    hostileSync
      (remove_actor (add_actor stageC8 0 ⟨Kind.monster, 3, 3, 1, 1, 5, 0, false⟩) 0
        Kind.monster) := by
  have h2 := (c8_amended_add_remove_keep_sync).2
    (add_actor stageC8 0 ⟨Kind.monster, 3, 3, 1, 1, 5, 0, false⟩) 0
    ⟨Kind.monster, 3, 3, 1, 1, 5, 0, false⟩
    ((c8_amended_add_remove_keep_sync).1 stageC8 0 _ (by decide)) (by decide)
    (by decide)
  exact h2

/-! ## C9: setup creates an out-of-bounds monster -/

/-- Monster attribute initialisation: `Monster.__init__` sets
`_dx = _dy = 1`; `_delay_count = 0`; the player's `dead` flag starts
False. The heading fields are unused for non-monster kinds. -/
def mkActorD (k : Kind) (x y : Int) (d : Nat) : Actor :=
  ⟨k, x, y, 1, 1, d, 0, false⟩

/-- The stage `ww = Stage(20, 20, 24)` of wwgame.py (icon dimension is
display-only and not modelled). -/
def wwStage : Stage := ⟨20, 20, [], [], []⟩

/-- The deterministic prefix of `wwgame.setup()`:
`set_player(KeyboardPlayer(...))` (which calls `add_actor`; the default
position is `(0, 0)`, default delay 5) and the three hard-coded monsters
`Monster(..., 7, 4, 5)`, `Monster(..., 4, 10, 3)`, `Monster(..., 5, 20, 2)`.
The remaining placements draw their coordinates from
`random.randrange(width/height)` and are therefore always in bounds;
they are omitted. -/
def setupFixed : Stage :=
  add_actor
    (add_actor
      (add_actor
        (add_actor wwStage 0 (mkActorD Kind.player 0 0 5))
        1 (mkActorD Kind.monster 7 4 5))
      2 (mkActorD Kind.monster 4 10 3))
    3 (mkActorD Kind.monster 5 20 2)

/-- C9: the claim fails on the code — `setup()` hard-codes a Monster at
`(5, 20)` on the 20×20 stage, and `Actor.set_position` stores positions
unvalidated, so an entity created during setup sits out of bounds
(y = 20 = height). -/
theorem c9_setup_creates_out_of_bounds_monster :
    (3, mkActorD Kind.monster 5 20 2) ∈ setupFixed.actors ∧
    is_in_bounds setupFixed 5 20 = false := by
  decide

/-! ## C3: the Agent moving into a Hostile -/

theorem monsterK_ne_wall {k : Kind} (h : isMonsterK k = true) : k ≠ Kind.wall := by
  cases k <;> simp_all [isMonsterK]

theorem monsterK_ne_player {k : Kind} (h : isMonsterK k = true) : k ≠ Kind.player := by
  cases k <;> simp_all [isMonsterK]

/-- A monster of any kind refuses a push: `move` called with
`other != self` returns False without touching the stage. -/
theorem monster_refuses_push (fuel : Nat) (s : Stage) (i o : Nat) (d1 d2 : Int)
    (a : Actor) (hl : lookupActor s i = some a) (hk : isMonsterK a.kind = true)
    (ho : o ≠ i) : moveA fuel s i o d1 d2 = (s, false) := by
  match fuel with
  | 0 => rfl
  | fuel + 1 =>
    cases hc : a.kind <;> simp [hc, isMonsterK] at hk <;>
      simp [moveA, hl, hc, ho]

/-- C3: when the Agent attempts to move onto a cell (in bounds) occupied
by a Hostile of any kind, the Hostile refuses the delegated push, the
Agent's `dead` flag is set, and the call returns True without relocating
anybody — the code's rendering of the `Killed` outcome (the only state
change is the Agent's liveness flag). -/
theorem c3_agent_into_hostile_kills_agent (fuel : Nat) (s : Stage)
    (pid oid mid : Nat) (pa ma : Actor) (dx dy : Int) (hInv : Inv s)
    (hp : (pid, pa) ∈ s.actors) (hpk : pa.kind = Kind.player)
    (hm : (mid, ma) ∈ s.actors) (hmk : isMonsterK ma.kind = true)
    (hx : ma.x = pa.x + dx) (hy : ma.y = pa.y + dy)
    (hb : is_in_bounds s (pa.x + dx) (pa.y + dy) = true) :
    moveA (fuel + 1) s pid oid dx dy = (setDead s pid, true) := by
  have hne : pid ≠ mid := by
    intro he
    have := idInj hInv.1 hp hm (by rw [he])
    rw [Prod.mk.injEq] at this
    exact monsterK_ne_player hmk (this.2 ▸ hpk)
  have hlp : lookupActor s pid = some pa := lookup_of_mem hInv.1 hp
  have hg : get_actor s (pa.x + dx) (pa.y + dy) = some (mid, ma) := by
    have := get_actor_of_mem hInv.2 hm
    rw [hx, hy] at this
    exact this
  have hrefuse := monster_refuses_push fuel s mid pid dx dy ma
    (lookup_of_mem hInv.1 hm) hmk (Ne.symm (fun he => hne he.symm))
  simp [moveA, hlp, hpk, hb, hg, monsterK_ne_wall hmk, hrefuse, hmk]

/-- The concrete stage for the C3 witness: the player at the origin, a
Patrol monster at `(1, 0)`. -/
def stageC3 : Stage :=
  ⟨20, 20,
   [(0, ⟨Kind.player, 0, 0, 1, 1, 5, 0, false⟩),
    (1, ⟨Kind.monster, 1, 0, 1, 1, 5, 0, false⟩)],
   [1], []⟩

theorem c3_witness :
    moveA 9 stageC3 0 0 1 0 = (setDead stageC3 0, true) := by
  exact c3_agent_into_hostile_kills_agent 8 stageC3 0 0 1
    ⟨Kind.player, 0, 0, 1, 1, 5, 0, false⟩ ⟨Kind.monster, 1, 0, 1, 1, 5, 0, false⟩
    1 0 (by decide) (by decide) rfl (by decide) (by decide) (by decide) (by decide)
    (by decide)

/-! ## C4: the Ripper's StickyBox destruction sweep -/

/-- What the index scan of `sweepSticky` computes, in recursive form:
removing the entry under the index shifts the next entry into the current
slot, and the loop's `i + 1` then skips it unexamined. -/
def pySweep : List (Nat × Actor) → List (Nat × Actor)
  | [] => []
  | [x] => if x.2.kind = Kind.stickyBox then [] else [x]
  | x :: y :: rest =>
    if x.2.kind = Kind.stickyBox then y :: pySweep rest
    else x :: pySweep (y :: rest)

theorem get_append_len (P : List (Nat × Actor)) (x : Nat × Actor)
    (R : List (Nat × Actor)) : (P ++ x :: R).get? P.length = some x := by
  induction P with
  | nil => rfl
  | cons q rest ih => simpa using ih

theorem eraseId_append {P : List (Nat × Actor)} {x : Nat × Actor}
    {R : List (Nat × Actor)} (h : ∀ p ∈ P, p.1 ≠ x.1) :
    eraseId (P ++ x :: R) x.1 = P ++ R := by
  induction P with
  | nil => simp [eraseId]
  | cons q rest ih =>
    unfold eraseId
    rw [List.cons_append, List.cons_append]
    simp only
    rw [if_neg (h q (List.mem_cons_self q rest))]
    rw [ih (fun p hp => h p (List.mem_cons_of_mem q hp))]

/-- The bridge between the faithful index scan and its recursive
characterisation: with unique ids, running the scan from index
`P.length` on a stage whose actor list is `P ++ Q` rewrites the list to
`P ++ pySweep Q` and touches nothing else (removing a StickyBox never
touches `_monsters`). -/
theorem sweepSticky_eq_pySweep :
    ∀ (fuel : Nat) (P Q : List (Nat × Actor)) (s : Stage),
    s.actors = P ++ Q → (((P ++ Q).map Prod.fst).Nodup) → fuel ≥ Q.length →
    sweepSticky fuel s P.length = { s with actors := P ++ pySweep Q } := by
  intro fuel
  induction fuel with
  | zero =>
    intro P Q s hact _ hf
    have : Q = [] := List.length_eq_zero.mp (Nat.le_zero.mp hf)
    subst this
    unfold sweepSticky
    cases s
    simp_all [pySweep]
  | succ m ih =>
    intro P Q s hact hnd hf
    match Q with
    | [] =>
      unfold sweepSticky
      rw [hact, List.append_nil, show (P.get? P.length) = none from
        List.get?_eq_none.mpr (le_refl _)]
      cases s
      simp_all [pySweep]
    | x :: R =>
      have hget : s.actors.get? P.length = some x := by
        rw [hact]; exact get_append_len P x R
      have hPx : ∀ p ∈ P, p.1 ≠ x.1 := by
        intro p hp he
        have h1 : p.1 ∈ (P.map Prod.fst) := List.mem_map.mpr ⟨p, hp, rfl⟩
        have h2 : x.1 ∈ ((x :: R).map Prod.fst) :=
          List.mem_map.mpr ⟨x, List.mem_cons_self x R, rfl⟩
        rw [List.map_append] at hnd
        exact (List.disjoint_of_nodup_append hnd) h1 (he ▸ h2)
      by_cases hk : x.2.kind = Kind.stickyBox
      · have hrm : remove_actor s x.1 Kind.stickyBox =
            { s with actors := P ++ R } := by
          unfold remove_actor
          rw [if_neg (by decide)]
          rw [hact, eraseId_append hPx]
        unfold sweepSticky
        rw [hget]
        simp only [hk, if_true]
        rw [hrm]
        match R with
        | [] =>
          have : sweepSticky m { s with actors := P ++ [] } (P.length + 1) =
              { s with actors := P ++ [] } := by
            match m with
            | 0 => rfl
            | m + 1 =>
              unfold sweepSticky
              rw [show (({ s with actors := P ++ [] } : Stage).actors.get?
                  (P.length + 1)) = none from
                List.get?_eq_none.mpr (by simp)]
          rw [this]
          simp [pySweep, hk]
        | y :: R2 =>
          have hlen : P.length + 1 = (P ++ [y]).length := by simp
          have hact2 : ({ s with actors := P ++ y :: R2 } : Stage).actors =
              (P ++ [y]) ++ R2 := by simp
          have hnd2 : (((P ++ [y]) ++ R2).map Prod.fst).Nodup := by
            have hsub : ((P ++ [y]) ++ R2).Sublist (P ++ x :: y :: R2) := by
              simp only [List.append_assoc, List.singleton_append]
              exact (List.sublist_cons_self x (y :: R2)).append_left P
            exact ((hsub.map Prod.fst).nodup hnd)
          rw [hlen, ih (P ++ [y]) R2 _ hact2 hnd2 (by
            have := hf
            simp only [List.length_cons] at this ⊢
            omega)]
          simp [pySweep, hk]
      · unfold sweepSticky
        rw [hget]
        simp only [hk, if_false]
        have hlen : P.length + 1 = (P ++ [x]).length := by simp
        have hact2 : s.actors = (P ++ [x]) ++ R := by
          rw [hact]; simp
        have hnd2 : (((P ++ [x]) ++ R).map Prod.fst).Nodup := by
          rw [show (P ++ [x]) ++ R = P ++ x :: R by simp]
          exact hnd
        rw [hlen, ih (P ++ [x]) R s hact2 hnd2 (by
          have := hf
          simp only [List.length_cons] at this ⊢
          omega)]
        match R with
        | [] => simp [pySweep, hk]
        | y :: R2 => simp [pySweep, hk]

/-- No StickyBox directly follows another in the list. -/
def NoAdjSticky (l : List (Nat × Actor)) : Prop :=
  List.Chain' (fun p q => ¬(p.2.kind = Kind.stickyBox ∧ q.2.kind = Kind.stickyBox)) l

theorem pySweep_clears : ∀ (Q : List (Nat × Actor)), NoAdjSticky Q →
    ∀ p ∈ pySweep Q, p.2.kind ≠ Kind.stickyBox := by
  intro Q
  induction Q using pySweep.induct with
  | case1 =>
    intro _ p hp
    simp [pySweep] at hp
  | case2 x hk =>
    intro _ p hp
    simp [pySweep, hk] at hp
  | case3 x hk =>
    intro _ p hp
    simp only [pySweep, hk, if_false] at hp
    simp only [List.mem_singleton] at hp
    exact hp ▸ hk
  | case4 x y rest hk ih =>
    intro hch p hp
    rw [NoAdjSticky, List.chain'_cons] at hch
    simp only [pySweep, hk, if_true, List.mem_cons] at hp
    rcases hp with rfl | hp
    · intro hy
      exact hch.1 ⟨hk, hy⟩
    · exact ih ((hch.2).tail) p hp
  | case5 x y rest hk ih =>
    intro hch p hp
    rw [NoAdjSticky, List.chain'_cons] at hch
    simp only [pySweep, hk, if_false, List.mem_cons] at hp
    rcases hp with rfl | hp
    · exact hk
    · exact ih hch.2 p hp

/-- C4 counterexample: a dead Ripper on a stage whose actor list holds
two StickyBoxes in adjacent slots. Its step removes the Ripper and runs
the destruction loop, but the loop iterates the very list it is removing
from, so after removing the first StickyBox it skips the entry shifted
into its slot: the second StickyBox at `(6, 6)` is still on the Board,
where the claim says every ImmobilizingBlock is removed. -/
def stageC4 : Stage :=
  ⟨20, 20,
   [(0, ⟨Kind.ripper, 0, 0, 1, 1, 5, 0, false⟩),
    (1, ⟨Kind.wall, 1, 0, 1, 1, 5, 0, false⟩),
    (2, ⟨Kind.wall, 0, 1, 1, 1, 5, 0, false⟩),
    (3, ⟨Kind.wall, 1, 1, 1, 1, 5, 0, false⟩),
    (4, ⟨Kind.stickyBox, 5, 5, 1, 1, 5, 0, false⟩),
    (5, ⟨Kind.stickyBox, 6, 6, 1, 1, 5, 0, false⟩)],
   [0], []⟩

theorem c4_counterexample :
    lookupActor (stepA 5 stageC4 0) 0 = none ∧
    (4, (⟨Kind.stickyBox, 5, 5, 1, 1, 5, 0, false⟩ : Actor)) ∉ (stepA 5 stageC4 0).actors ∧
    (5, (⟨Kind.stickyBox, 6, 6, 1, 1, 5, 0, false⟩ : Actor)) ∈ (stepA 5 stageC4 0).actors := by
  decide

/-- C4 amended: when a Ripper dies, the StickyBox destruction loop walks
the mutating actor list by index, skipping the entry shifted into the
slot of each removed StickyBox; so every ImmobilizingBlock is removed
provided no StickyBox directly follows another in the list once the
Ripper itself is removed (without that proviso a follower survives, see
the counterexample). When a non-Shatterer hostile dies, its step only
removes the hostile itself, so no ImmobilizingBlock is removed. -/
theorem c4_amended_shatterer_sweep :
    (∀ (fuel : Nat) (s : Stage) (i : Nat) (a : Actor), Inv s →
      lookupActor s i = some a → a.kind = Kind.ripper → is_dead s a = true →
      NoAdjSticky (remove_actor s i Kind.ripper).actors →
      ∀ p ∈ (stepA (fuel + 1) s i).actors, p.2.kind ≠ Kind.stickyBox) ∧
    (∀ (fuel : Nat) (s : Stage) (i : Nat) (a : Actor),
      lookupActor s i = some a →
      (a.kind = Kind.monster ∨ a.kind = Kind.freeMonster ∨
        a.kind = Kind.boxMonster ∨ a.kind = Kind.boss) →
      is_dead s a = true →
      stepA (fuel + 1) s i = remove_actor s i a.kind) := by
  constructor
  · intro fuel s i a hInv hl hk hd hch
    have hstep : stepA (fuel + 1) s i =
        sweepSticky (remove_actor s i Kind.ripper).actors.length
          (remove_actor s i Kind.ripper) 0 := by
      simp [stepA, hl, hk, hd]
    have hbridge := sweepSticky_eq_pySweep
      (remove_actor s i Kind.ripper).actors.length []
      (remove_actor s i Kind.ripper).actors (remove_actor s i Kind.ripper)
      (by simp) (by
        have := (Inv_remove_actor hInv i Kind.ripper).1
        simpa [IdsOk] using this)
      (by simp)
    rw [hstep, show (0 : Nat) = ([] : List (Nat × Actor)).length from rfl, hbridge]
    intro p hp
    simp only [List.nil_append] at hp
    exact pySweep_clears _ hch p hp
  · intro fuel s i a hl hk hd
    rcases hk with hk | hk | hk | hk <;> simp [stepA, hl, hk, hd]

/-- The concrete stage for the C4 witness: a dead Ripper and two
StickyBoxes that are not adjacent in the actor list. -/
def stageC4w : Stage :=
  ⟨20, 20,
   [(0, ⟨Kind.ripper, 0, 0, 1, 1, 5, 0, false⟩),
    (4, ⟨Kind.stickyBox, 5, 5, 1, 1, 5, 0, false⟩),
    (1, ⟨Kind.wall, 1, 0, 1, 1, 5, 0, false⟩),
    (5, ⟨Kind.stickyBox, 6, 6, 1, 1, 5, 0, false⟩),
    (2, ⟨Kind.wall, 0, 1, 1, 1, 5, 0, false⟩),
    (3, ⟨Kind.wall, 1, 1, 1, 1, 5, 0, false⟩)],
   [0], []⟩

theorem c4_witness :
    (4, (⟨Kind.stickyBox, 5, 5, 1, 1, 5, 0, false⟩ : Actor)) ∉ (stepA 9 stageC4w 0).actors := by
  intro hmem
  exact (c4_amended_shatterer_sweep.1 8 stageC4w 0
    ⟨Kind.ripper, 0, 0, 1, 1, 5, 0, false⟩ (by decide) rfl rfl (by decide)
    (by unfold NoAdjSticky; simp [remove_actor, isMonsterK, eraseId, List.chain'_cons]))
    _ hmem rfl

/-! ## C2: every move performed by the system preserves single occupancy -/

/-- The entity is not a Barrier: Walls are never asked to move by the
delegation protocol (both pushers exclude them before delegating), so the
system's move calls always satisfy this. -/
def notWallB (s : Stage) (i : Nat) : Bool :=
  match lookupActor s i with
  | none => true
  | some a => decide (a.kind ≠ Kind.wall)

/-- A self-initiated Patrol move carries the stored heading as its
`(dx, dy)` arguments, exactly as `Monster.step` issues it
(`self.move(self, self._dx, self._dy)`). -/
def patrolOkB (s : Stage) (i o : Nat) (d1 d2 : Int) : Bool :=
  match lookupActor s i with
  | none => true
  | some a =>
    if a.kind = Kind.monster ∧ o = i then decide (d1 = a.dx ∧ d2 = a.dy)
    else true

theorem notWallB_of (s : Stage) {i : Nat} {a : Actor}
    (hl : lookupActor s i = some a) (hk : a.kind ≠ Kind.wall) :
    notWallB s i = true := by
  unfold notWallB
  rw [hl]
  simpa using hk

theorem patrolOkB_of_not_monster (s : Stage) {i : Nat} (o : Nat) (d1 d2 : Int)
    {a : Actor} (hl : lookupActor s i = some a)
    (hk : ¬(a.kind = Kind.monster ∧ o = i)) :
    patrolOkB s i o d1 d2 = true := by
  unfold patrolOkB
  simp only [hl]
  rw [if_neg hk]

theorem patrolOkB_heading {s : Stage} {i o : Nat} {d1 d2 : Int} {a : Actor}
    (hp : patrolOkB s i o d1 d2 = true) (hl : lookupActor s i = some a)
    (hk : a.kind = Kind.monster) (ho : o = i) :
    d1 = a.dx ∧ d2 = a.dy := by
  unfold patrolOkB at hp
  simp only [hl] at hp
  rw [if_pos ⟨hk, ho⟩] at hp
  exact of_decide_eq_true hp

theorem Inv_updActor_pres {s : Stage} (hs : Inv s) (i : Nat) {f : Actor → Actor}
    (hf : ∀ a, (f a).x = a.x ∧ (f a).y = a.y) : Inv (updActor s i f) :=
  ⟨IdsOk_updActor hs.1 _ _, PosOk_updActor_pres hs.2 _ hf⟩

theorem Inv_setDead {s : Stage} (hs : Inv s) (i : Nat) : Inv (setDead s i) :=
  Inv_updActor_pres hs i (fun a => ⟨rfl, rfl⟩)

theorem Inv_flipDx {s : Stage} (hs : Inv s) (i : Nat) : Inv (flipDx s i) :=
  Inv_updActor_pres hs i (fun a => ⟨rfl, rfl⟩)

theorem Inv_flipDy {s : Stage} (hs : Inv s) (i : Nat) : Inv (flipDy s i) :=
  Inv_updActor_pres hs i (fun a => ⟨rfl, rfl⟩)

theorem Inv_flipBoth {s : Stage} (hs : Inv s) (i : Nat) : Inv (flipBoth s i) :=
  Inv_updActor_pres hs i (fun a => ⟨rfl, rfl⟩)

theorem popRand_actors (s : Stage) : (popRand s).2.actors = s.actors := by
  unfold popRand
  match s.rng with
  | [] => rfl
  | r :: rest => rfl

theorem lookup_congr {s t : Stage} (h : s.actors = t.actors) (i : Nat) :
    lookupActor s i = lookupActor t i := by
  unfold lookupActor
  rw [h]

theorem Inv_popRand {s : Stage} (hs : Inv s) : Inv (popRand s).2 :=
  Inv_ignores_rest (popRand_actors s).symm hs

theorem get_actor_mem_pair {s : Stage} (hs : PosOk s) {p : Nat × Actor}
    (h : p ∈ s.actors) : get_actor s p.2.x p.2.y = some p := by
  have := get_actor_of_mem (i := p.1) (a := p.2) hs (by simpa using h)
  simpa using this

/-- Every move call the system issues (pushers are never Walls, and a
Patrol self-move carries its heading as arguments) and every step call
preserves the stage invariant. -/
theorem invariants_preserved : ∀ fuel : Nat,
    (∀ (s : Stage) (i o : Nat) (d1 d2 : Int), Inv s → notWallB s i = true →
      patrolOkB s i o d1 d2 = true → Inv (moveA fuel s i o d1 d2).1) ∧
    (∀ (s : Stage) (i : Nat), Inv s → Inv (stepA fuel s i)) := by
  intro fuel
  induction fuel with
  | zero =>
    refine ⟨fun s i o d1 d2 hInv _ _ => hInv, fun s i hInv => hInv⟩
  | succ fuel ih =>
    obtain ⟨ihm, ihs⟩ := ih
    constructor
    · intro s i o d1 d2 hInv hw hp
      rcases hl : lookupActor s i with _ | a
      · simpa [moveA, hl] using hInv
      · cases hk : a.kind
        case wall =>
          unfold notWallB at hw
          simp [hl, hk] at hw
        case player =>
          simp only [moveA, hl, hk]
          by_cases hb : is_in_bounds s (a.x + d1) (a.y + d2) = true
          · simp only [hb, if_true]
            rcases hg : get_actor s (a.x + d1) (a.y + d2) with _ | occ
            · simpa [hg] using Inv_set_position_empty hInv hg
            · simp only [hg]
              by_cases hwall : occ.2.kind = Kind.wall
              · simpa [hwall] using hInv
              · have hoccmem := get_actor_mem hg
                have hlocc : lookupActor s occ.1 = some occ.2 :=
                  lookup_of_mem hInv.1 (by simpa using hoccmem.1)
                have hs1 : Inv (moveA fuel s occ.1 i d1 d2).1 := by
                  apply ihm s occ.1 i d1 d2 hInv (notWallB_of s hlocc hwall)
                  apply patrolOkB_of_not_monster s i d1 d2 hlocc
                  rintro ⟨hmk, hii⟩
                  rw [← hii] at hlocc
                  rw [hl] at hlocc
                  have : a = occ.2 := by injection hlocc
                  rw [this, hmk] at hk
                  cases hk
                simp only [hwall, if_false]
                rcases hg2 : get_actor (moveA fuel s occ.1 i d1 d2).1
                    (a.x + d1) (a.y + d2) with _ | occ2
                · simpa [hg2] using Inv_set_position_empty hs1 hg2
                · simp only [hg2]
                  by_cases hm2 : isMonsterK occ2.2.kind = true
                  · simpa [hm2] using Inv_setDead hs1 i
                  · simpa [hm2] using hs1
          · simpa [hb] using hInv
        case box =>
          simp only [moveA, hl, hk]
          by_cases hb : is_in_bounds s (a.x + d1) (a.y + d2) = true
          · simp only [hb, if_true]
            rcases hg : get_actor s (a.x + d1) (a.y + d2) with _ | occ
            · simpa [hg] using Inv_set_position_empty hInv hg
            · simp only [hg]
              by_cases hwall : occ.2.kind = Kind.wall
              · simpa [hwall] using hInv
              · have hoccmem := get_actor_mem hg
                have hlocc : lookupActor s occ.1 = some occ.2 :=
                  lookup_of_mem hInv.1 (by simpa using hoccmem.1)
                have hs1 : Inv (moveA fuel s occ.1 i d1 d2).1 := by
                  apply ihm s occ.1 i d1 d2 hInv (notWallB_of s hlocc hwall)
                  apply patrolOkB_of_not_monster s i d1 d2 hlocc
                  rintro ⟨hmk, hii⟩
                  rw [← hii] at hlocc
                  rw [hl] at hlocc
                  have : a = occ.2 := by injection hlocc
                  rw [this, hmk] at hk
                  cases hk
                simp only [hwall, if_false]
                rcases hg2 : get_actor (moveA fuel s occ.1 i d1 d2).1
                    (a.x + d1) (a.y + d2) with _ | occ2
                · simpa [hg2] using Inv_set_position_empty hs1 hg2
                · simpa [hg2] using hs1
          · simpa [hb] using hInv
        case stickyBox =>
          simp only [moveA, hl, hk]
          by_cases hb : is_in_bounds s (a.x + d1) (a.y + d2) = true
          · simp only [hb, if_true]
            rcases hg : get_actor s (a.x + d1) (a.y + d2) with _ | occ
            · simpa [hg] using Inv_set_position_empty hInv hg
            · simp only [hg]
              by_cases hwall : occ.2.kind = Kind.wall
              · simpa [hwall] using hInv
              · have hoccmem := get_actor_mem hg
                have hlocc : lookupActor s occ.1 = some occ.2 :=
                  lookup_of_mem hInv.1 (by simpa using hoccmem.1)
                have hs1 : Inv (moveA fuel s occ.1 i d1 d2).1 := by
                  apply ihm s occ.1 i d1 d2 hInv (notWallB_of s hlocc hwall)
                  apply patrolOkB_of_not_monster s i d1 d2 hlocc
                  rintro ⟨hmk, hii⟩
                  rw [← hii] at hlocc
                  rw [hl] at hlocc
                  have : a = occ.2 := by injection hlocc
                  rw [this, hmk] at hk
                  cases hk
                simp only [hwall, if_false]
                rcases hg2 : get_actor (moveA fuel s occ.1 i d1 d2).1
                    (a.x + d1) (a.y + d2) with _ | occ2
                · simpa [hg2] using Inv_set_position_empty hs1 hg2
                · simpa [hg2] using hs1
          · simpa [hb] using hInv
        case monster =>
          simp only [moveA, hl, hk]
          by_cases hoi : o = i
          · simp only [hoi, ne_eq, not_true_eq_false, if_neg, ite_false]
            obtain ⟨hd1, hd2⟩ := patrolOkB_heading hp hl hk hoi
            subst hd1
            subst hd2
            by_cases hbx : is_in_bounds_x s (a.x + a.dx) = true <;>
              by_cases hby : is_in_bounds_y s (a.y + a.dy) = true <;>
              rcases hg : get_actor s (a.x + a.dx) (a.y + a.dy) with _ | op <;>
              simp only [hbx, hby, hg, Bool.not_true, Bool.not_false,
                if_true, if_false, Bool.false_or, Bool.or_false, Bool.or_self,
                Bool.true_or, if_neg, ite_true, ite_false]
            · exact Inv_set_position_empty hInv hg
            · by_cases hpk2 : op.2.kind = Kind.player <;>
                simp only [hpk2, if_true, if_false]
              · exact Inv_setDead (Inv_flipBoth hInv i) op.1
              · exact Inv_flipBoth hInv i
            · exact Inv_flipDy hInv i
            · by_cases hpk2 : op.2.kind = Kind.player <;>
                simp only [hpk2, if_true, if_false]
              · exact Inv_setDead (Inv_flipBoth (Inv_flipDy hInv i) i) op.1
              · exact Inv_flipBoth (Inv_flipDy hInv i) i
            · exact Inv_flipDx hInv i
            · by_cases hpk2 : op.2.kind = Kind.player <;>
                simp only [hpk2, if_true, if_false]
              · exact Inv_setDead (Inv_flipBoth (Inv_flipDx hInv i) i) op.1
              · exact Inv_flipBoth (Inv_flipDx hInv i) i
            · exact Inv_flipDy (Inv_flipDx hInv i) i
            · by_cases hpk2 : op.2.kind = Kind.player <;>
                simp only [hpk2, if_true, if_false]
              · exact Inv_setDead (Inv_flipBoth (Inv_flipDy (Inv_flipDx hInv i) i) i) op.1
              · exact Inv_flipBoth (Inv_flipDy (Inv_flipDx hInv i) i) i
          · simpa [hoi] using hInv
        case freeMonster =>
          simp only [moveA, hl, hk]
          by_cases hoi : o = i
          · simp only [hoi, ne_eq, not_true_eq_false, ite_false]
            by_cases hb : is_in_bounds s (a.x + d1) (a.y + d2) = true
            · simp only [hb, Bool.not_true, if_false, ite_false]
              rcases hg : get_actor s (a.x + d1) (a.y + d2) with _ | op <;>
                simp only [hg]
              · exact Inv_set_position_empty hInv hg
              · by_cases hpk2 : op.2.kind = Kind.player <;>
                  simp only [hpk2, if_true, if_false]
                · exact Inv_setDead hInv op.1
                · exact ihs s i hInv
            · simp only [hb]
              simpa using ihs s i hInv
          · simpa [hoi] using hInv
        case boxMonster =>
          simp only [moveA, hl, hk]
          by_cases hoi : o = i
          · simp only [hoi, ne_eq, not_true_eq_false, ite_false]
            by_cases hb : is_in_bounds s (a.x + d1) (a.y + d2) = true
            · simp only [hb, Bool.not_true, if_false, ite_false]
              rcases hg : get_actor s (a.x + d1) (a.y + d2) with _ | op <;>
                simp only [hg]
              · exact Inv_set_position_empty hInv hg
              · by_cases hpk2 : op.2.kind = Kind.player <;>
                  simp only [hpk2, if_true, if_false]
                · exact Inv_setDead hInv op.1
                · exact ihs s i hInv
            · simp only [hb]
              simpa using ihs s i hInv
          · simpa [hoi] using hInv
        case boss =>
          simp only [moveA, hl, hk]
          by_cases hoi : o = i
          · simp only [hoi, ne_eq, not_true_eq_false, ite_false]
            by_cases hb : is_in_bounds s (a.x + d1) (a.y + d2) = true
            · simp only [hb, Bool.not_true, if_false, ite_false]
              rcases hg : get_actor s (a.x + d1) (a.y + d2) with _ | op <;>
                simp only [hg]
              · exact Inv_set_position_empty hInv hg
              · by_cases hpk2 : op.2.kind = Kind.player <;>
                  simp only [hpk2, if_true, if_false]
                · exact Inv_setDead hInv op.1
                · exact ihs s i hInv
            · simp only [hb]
              simpa using ihs s i hInv
          · simpa [hoi] using hInv
        case ripper =>
          simp only [moveA, hl, hk]
          by_cases hoi : o = i
          · simp only [hoi, ne_eq, not_true_eq_false, ite_false]
            by_cases hb : is_in_bounds s (a.x + d1) (a.y + d2) = true
            · simp only [hb, Bool.not_true, if_false, ite_false]
              rcases hg : get_actor s (a.x + d1) (a.y + d2) with _ | op <;>
                simp only [hg]
              · exact Inv_set_position_empty hInv hg
              · by_cases hpk2 : op.2.kind = Kind.player <;>
                  simp only [hpk2, if_true, if_false]
                · exact Inv_setDead hInv op.1
                · exact ihs s i hInv
            · simp only [hb]
              simpa using ihs s i hInv
          · simpa [hoi] using hInv
    · intro s i hInv
      rcases hl : lookupActor s i with _ | a
      · simpa [stepA, hl] using hInv
      · have hs1 : Inv (updActor s i
            (fun b => { b with delayCount := (a.delayCount + 1) % a.delayP })) :=
          Inv_updActor_pres hInv i (fun b => ⟨rfl, rfl⟩)
        have hl1 : lookupActor (updActor s i
            (fun b => { b with delayCount := (a.delayCount + 1) % a.delayP })) i =
            some { a with delayCount := (a.delayCount + 1) % a.delayP } := by
          rw [lookup_updActor, hl]
          simp
        cases hk : a.kind
        case player => simpa [stepA, hl, hk] using hInv
        case box => simpa [stepA, hl, hk] using hInv
        case stickyBox => simpa [stepA, hl, hk] using hInv
        case wall => simpa [stepA, hl, hk] using hInv
        case monster =>
          simp only [stepA, hl, hk]
          by_cases hd : is_dead s a = true
          · have hrm := Inv_remove_actor hInv i a.kind
            rw [hk] at hrm
            simpa [hd, remove_actor] using hrm
          · by_cases hst : is_stuck s a = true
            · simpa [hd, hst] using hInv
            · simp only [hd, hst, Bool.not_false, Bool.and_self, if_true,
                Bool.false_and, Bool.and_false, Bool.not_true, ite_true, ite_false]
              by_cases hc : (a.delayCount + 1) % a.delayP = 0
              · simp only [hc, ne_eq, not_true_eq_false, ite_false, if_neg]
                rw [hc] at hs1 hl1
                apply ihm _ i i a.dx a.dy hs1
                · exact notWallB_of _ hl1 (by simp [hk])
                · unfold patrolOkB
                  rw [hl1]
                  simp [hk]
              · simpa [hc] using hs1
        case freeMonster =>
          simp only [stepA, hl, hk]
          by_cases hd : is_dead s a = true
          · have hrm := Inv_remove_actor hInv i a.kind
            rw [hk] at hrm
            simpa [hd, remove_actor] using hrm
          · by_cases hst : is_stuck s a = true
            · simpa [hd, hst] using hInv
            · simp only [hd, hst, Bool.not_false, Bool.and_self, if_true,
                Bool.false_and, Bool.and_false, Bool.not_true, ite_true, ite_false]
              by_cases hc : (a.delayCount + 1) % a.delayP = 0
              · simp only [hc, ne_eq, not_true_eq_false, ite_false, if_neg]
                rw [hc] at hs1 hl1
                have hpp : (popRand (popRand (updActor s i
                    (fun b => { b with delayCount := 0 }))).2).2.actors =
                    (updActor s i (fun b => { b with delayCount := 0 })).actors := by
                  rw [popRand_actors, popRand_actors]
                have hl3 := (lookup_congr hpp i).trans hl1
                apply ihm _ i i _ _ (Inv_popRand (Inv_popRand hs1))
                · exact notWallB_of _ hl3 (by simp [hk])
                · apply patrolOkB_of_not_monster _ i _ _ hl3
                  rintro ⟨hmk, _⟩
                  simp [hk] at hmk
              · simpa [hc] using hs1
        case boxMonster =>
          simp only [stepA, hl, hk]
          by_cases hd : is_dead s a = true
          · have hrm := Inv_remove_actor hInv i a.kind
            rw [hk] at hrm
            simpa [hd, remove_actor] using hrm
          · by_cases hst : is_stuck s a = true
            · simpa [hd, hst] using hInv
            · simp only [hd, hst, Bool.not_false, Bool.and_self, if_true,
                Bool.false_and, Bool.and_false, Bool.not_true, ite_true, ite_false]
              by_cases hc : (a.delayCount + 1) % a.delayP = 0
              · simp only [hc, ne_eq, not_true_eq_false, ite_false, if_neg]
                rw [hc] at hs1 hl1
                have hpp : (popRand (popRand (updActor s i
                    (fun b => { b with delayCount := 0 }))).2).2.actors =
                    (updActor s i (fun b => { b with delayCount := 0 })).actors := by
                  rw [popRand_actors, popRand_actors]
                have hl3 := (lookup_congr hpp i).trans hl1
                apply ihm _ i i _ _ (Inv_popRand (Inv_popRand hs1))
                · exact notWallB_of _ hl3 (by simp [hk])
                · apply patrolOkB_of_not_monster _ i _ _ hl3
                  rintro ⟨hmk, _⟩
                  simp [hk] at hmk
              · simpa [hc] using hs1
        case boss =>
          simp only [stepA, hl, hk]
          by_cases hd : is_dead s a = true
          · have hrm := Inv_remove_actor hInv i a.kind
            rw [hk] at hrm
            simpa [hd, remove_actor] using hrm
          · by_cases hst : is_stuck s a = true
            · simpa [hd, hst] using hInv
            · simp only [hd, hst, Bool.not_false, Bool.and_self, if_true,
                Bool.false_and, Bool.and_false, Bool.not_true, ite_true, ite_false]
              by_cases hc : (a.delayCount + 1) % a.delayP = 0
              · simp only [hc, ne_eq, not_true_eq_false, ite_false, if_neg]
                rw [hc] at hs1 hl1
                have hpp : (popRand (popRand (updActor s i
                    (fun b => { b with delayCount := 0 }))).2).2.actors =
                    (updActor s i (fun b => { b with delayCount := 0 })).actors := by
                  rw [popRand_actors, popRand_actors]
                have hl3 := (lookup_congr hpp i).trans hl1
                apply ihm _ i i _ _ (Inv_popRand (Inv_popRand hs1))
                · exact notWallB_of _ hl3 (by simp [hk])
                · apply patrolOkB_of_not_monster _ i _ _ hl3
                  rintro ⟨hmk, _⟩
                  simp [hk] at hmk
              · simpa [hc] using hs1
        case ripper =>
          simp only [stepA, hl, hk]
          by_cases hd : is_dead s a = true
          · simp only [hd, Bool.not_true, Bool.false_and, Bool.and_false,
              ite_false, if_neg]
            have hrm := @Inv_sweepSticky (remove_actor s i a.kind).actors.length
              (remove_actor s i a.kind) 0 (Inv_remove_actor hInv i a.kind)
            rw [hk] at hrm
            simpa using hrm
          · by_cases hst : is_stuck s a = true
            · simpa [hd, hst] using hInv
            · simp only [hd, hst, Bool.not_false, Bool.and_self, if_true,
                Bool.false_and, Bool.and_false, Bool.not_true, ite_true, ite_false]
              by_cases hc : (a.delayCount + 1) % a.delayP = 0
              · simp only [hc, ne_eq, not_true_eq_false, ite_false, if_neg]
                rw [hc] at hs1 hl1
                have hpp : (popRand (popRand (updActor s i
                    (fun b => { b with delayCount := 0 }))).2).2.actors =
                    (updActor s i (fun b => { b with delayCount := 0 })).actors := by
                  rw [popRand_actors, popRand_actors]
                have hl3 := (lookup_congr hpp i).trans hl1
                apply ihm _ i i _ _ (Inv_popRand (Inv_popRand hs1))
                · exact notWallB_of _ hl3 (by simp [hk])
                · apply patrolOkB_of_not_monster _ i _ _ hl3
                  rintro ⟨hmk, _⟩
                  simp [hk] at hmk
              · simpa [hc] using hs1

/-- C2: every move call the system performs preserves the occupancy
invariant: positions stay pairwise distinct (at most one entity per
cell), and the grid lookup finds each entity exactly at its own recorded
position. The hypotheses state how the system issues moves: Walls are
never asked to move (the protocol blocks on them instead of delegating),
and a Patrol self-move carries the stored heading as its arguments, as
`Monster.step` does. -/
theorem c2_moves_preserve_occupancy (fuel : Nat) (s : Stage) (i o : Nat)
    (d1 d2 : Int) (hInv : Inv s) (hw : notWallB s i = true)
    (hp : patrolOkB s i o d1 d2 = true) :
    Inv (moveA fuel s i o d1 d2).1 ∧
    ∀ p ∈ (moveA fuel s i o d1 d2).1.actors,
      get_actor (moveA fuel s i o d1 d2).1 p.2.x p.2.y = some p := by
  have h := (invariants_preserved fuel).1 s i o d1 d2 hInv hw hp
  exact ⟨h, fun p hp2 => get_actor_mem_pair h.2 hp2⟩

/-- The concrete stage for the C2 witness: the player pushing a box chain
with a monster elsewhere on the board. -/
def stageC2 : Stage :=
  ⟨20, 20,
   [(0, ⟨Kind.player, 0, 0, 1, 1, 5, 0, false⟩),
    (1, ⟨Kind.box, 1, 0, 1, 1, 5, 0, false⟩),
    (2, ⟨Kind.box, 2, 0, 1, 1, 5, 0, false⟩),
    (3, ⟨Kind.monster, 5, 5, 1, 1, 5, 0, false⟩)],
   [3], []⟩

theorem c2_witness : Inv (moveA 6 stageC2 0 0 1 0).1 :=
  (c2_moves_preserve_occupancy 6 stageC2 0 0 1 0 (by decide) (by decide)
    (by decide)).1

/-! ## C1: pushing a straight chain of boxes -/

/-- The spec-side description of a successful chain push: every listed
entity shifts by one cell in the push direction, everything else is
untouched. -/
def advance (ids : List Nat) (d1 d2 : Int) (s : Stage) : Stage :=
  { s with actors := s.actors.map (fun p =>
      if p.1 ∈ ids then (p.1, { p.2 with x := p.2.x + d1, y := p.2.y + d2 }) else p) }

/-- A straight line of Boxes: `bs` lists the ids of Box actors sitting on
the consecutive in-bounds cells `(cx, cy)`, `(cx+d1, cy+d2)`, …, one box
per cell. -/
def Chain (s : Stage) (d1 d2 : Int) : Int → Int → List Nat → Prop
  | _, _, [] => True
  | cx, cy, b :: rest =>
      (∃ a, (b, a) ∈ s.actors ∧ a.kind = Kind.box ∧ a.x = cx ∧ a.y = cy ∧
        is_in_bounds s cx cy = true) ∧
      Chain s d1 d2 (cx + d1) (cy + d2) rest

theorem listPosInj : ∀ {l : List (Nat × Actor)},
    l.Pairwise (fun p q => p.2.x ≠ q.2.x ∨ p.2.y ≠ q.2.y) →
    ∀ {p q : Nat × Actor}, p ∈ l → q ∈ l → p.2.x = q.2.x → p.2.y = q.2.y →
    p = q := by
  intro l
  induction l with
  | nil =>
    intro _ p q hp
    simp at hp
  | cons r rest ih =>
    intro hs p q hp hq hx hy
    rw [List.pairwise_cons] at hs
    rcases List.mem_cons.mp hp with h1 | h1 <;> rcases List.mem_cons.mp hq with h2 | h2
    · rw [h1, h2]
    · exfalso
      rcases hs.1 q h2 with h3 | h3
      · exact h3 (h1 ▸ hx)
      · exact h3 (h1 ▸ hy)
    · exfalso
      rcases hs.1 p h1 with h3 | h3
      · exact h3 (h2 ▸ hx.symm)
      · exact h3 (h2 ▸ hy.symm)
    · exact ih hs.2 h1 h2 hx hy

theorem pos_inj {s : Stage} (hs : PosOk s) {p q : Nat × Actor}
    (hp : p ∈ s.actors) (hq : q ∈ s.actors) (hx : p.2.x = q.2.x)
    (hy : p.2.y = q.2.y) : p = q :=
  listPosInj hs hp hq hx hy

theorem chain_mem {d1 d2 : Int} : ∀ {bs : List Nat} {cx cy : Int} {s : Stage},
    Chain s d1 d2 cx cy bs → IdsOk s → ∀ {q : Nat × Actor}, q ∈ s.actors →
    q.1 ∈ bs → ∃ k : Nat, k < bs.length ∧
      q.2.x = cx + (k : Int) * d1 ∧ q.2.y = cy + (k : Int) * d2 := by
  intro bs
  induction bs with
  | nil =>
    intro cx cy s _ _ q _ hq
    simp at hq
  | cons b rest ih =>
    intro cx cy s hch hids q hqmem hq
    obtain ⟨⟨a, hamem, _, hax, hay, _⟩, htail⟩ := hch
    rcases List.mem_cons.mp hq with h1 | h1
    · have : q = (b, a) := idInj hids hqmem hamem (by simpa using h1)
      refine ⟨0, by simp, ?_, ?_⟩
      · rw [this]; simpa using hax
      · rw [this]; simpa using hay
    · obtain ⟨k, hk, hkx, hky⟩ := ih htail hids hqmem h1
      refine ⟨k + 1, by simpa using Nat.succ_lt_succ hk, ?_, ?_⟩
      · rw [hkx]; push_cast; ring
      · rw [hky]; push_cast; ring

theorem chain_ids_box {d1 d2 : Int} : ∀ {bs : List Nat} {cx cy : Int} {s : Stage},
    Chain s d1 d2 cx cy bs → ∀ {j : Nat}, j ∈ bs →
    ∃ a, (j, a) ∈ s.actors ∧ a.kind = Kind.box := by
  intro bs
  induction bs with
  | nil =>
    intro cx cy s _ j hj
    simp at hj
  | cons b rest ih =>
    intro cx cy s hch j hj
    obtain ⟨⟨a, hamem, hak, _, _, _⟩, htail⟩ := hch
    rcases List.mem_cons.mp hj with h1 | h1
    · exact ⟨a, h1 ▸ hamem, hak⟩
    · exact ih htail h1

/-- After advancing a whole chain, the chain's first cell is empty. -/
theorem advance_vacates {d1 d2 : Int} (hd : ¬(d1 = 0 ∧ d2 = 0)) {s : Stage}
    {cx cy : Int} {b : Nat} {rest : List Nat} (hInv : Inv s)
    (hch : Chain s d1 d2 cx cy (b :: rest)) :
    get_actor (advance (b :: rest) d1 d2 s) cx cy = none := by
  obtain ⟨⟨a, hamem, _, hax, hay, _⟩, _⟩ := id hch
  rw [get_actor_eq_none]
  intro p hp
  unfold advance at hp
  simp only [List.mem_map] at hp
  obtain ⟨q, hqmem, rfl⟩ := hp
  by_cases hin : q.1 ∈ b :: rest
  · simp only [hin, if_true]
    obtain ⟨k, _, hkx, hky⟩ := chain_mem hch hInv.1 hqmem hin
    rintro ⟨h1, h2⟩
    simp only [hkx, hky] at h1 h2
    have e1 : ((k : Int) + 1) * d1 = 0 := by linear_combination h1
    have e2 : ((k : Int) + 1) * d2 = 0 := by linear_combination h2
    have hk0 : ((k : Int) + 1) ≠ 0 := by omega
    exact hd ⟨by
      rcases mul_eq_zero.mp e1 with h | h
      · exact absurd h hk0
      · exact h, by
      rcases mul_eq_zero.mp e2 with h | h
      · exact absurd h hk0
      · exact h⟩
  · simp only [hin, if_false]
    rintro ⟨h1, h2⟩
    have : q = (b, a) := pos_inj hInv.2 hqmem hamem (by rw [h1, hax])
      (by rw [h2, hay])
    exact hin (by rw [this]; exact List.mem_cons_self b rest)

theorem advance_nil (d1 d2 : Int) (s : Stage) : advance [] d1 d2 s = s := by
  unfold advance
  cases s
  simp

/-- Moving the pushing actor into the cell its chain vacated completes
the advance of the extended chain. -/
theorem advance_cons {s : Stage} (hInv : Inv s) {b : Nat} {a : Actor}
    {tl : List Nat} (d1 d2 : Int) (hmem : (b, a) ∈ s.actors) (hb : b ∉ tl) :
    set_position (advance tl d1 d2 s) b (a.x + d1) (a.y + d2) =
      advance (b :: tl) d1 d2 s := by
  unfold set_position updActor advance
  simp only [List.map_map]
  congr 1
  apply List.map_congr_left
  intro q hq
  by_cases h1 : q.1 = b
  · have hqa : q = (b, a) := idInj hInv.1 hq hmem h1
    simp only [Function.comp_apply, hqa, hb, if_false, if_pos rfl,
      List.mem_cons, true_or, if_true]
  · by_cases h2 : q.1 ∈ tl
    · simp only [Function.comp_apply, h2, if_true, h1, if_false,
        List.mem_cons, or_true]
    · have : ¬(q.1 ∈ b :: tl) := by
        rw [List.mem_cons]
        rintro (h | h)
        · exact h1 h
        · exact h2 h
      simp only [Function.comp_apply, h2, if_false, h1, this]

/-- Box.move on the head of a straight chain: if the cell past the far
end is in bounds and empty the whole chain advances one cell; otherwise
(out of bounds, or a Wall or hostile there) the stage is untouched and
the call returns False. The `other` argument is irrelevant — Box.move
never reads it. -/
theorem chain_move {d1 d2 : Int} (hd : ¬(d1 = 0 ∧ d2 = 0)) :
    ∀ (rest : List Nat) (b : Nat) (cx cy : Int) (s : Stage) (o : Nat) (fuel : Nat),
    Inv s → Chain s d1 d2 cx cy (b :: rest) → fuel ≥ rest.length + 1 →
    ((is_in_bounds s (cx + ((rest.length : Int) + 1) * d1)
        (cy + ((rest.length : Int) + 1) * d2) = true ∧
      get_actor s (cx + ((rest.length : Int) + 1) * d1)
        (cy + ((rest.length : Int) + 1) * d2) = none) →
      (moveA fuel s b o d1 d2).1 = advance (b :: rest) d1 d2 s) ∧
    ((is_in_bounds s (cx + ((rest.length : Int) + 1) * d1)
        (cy + ((rest.length : Int) + 1) * d2) = false ∨
      (∃ p, get_actor s (cx + ((rest.length : Int) + 1) * d1)
          (cy + ((rest.length : Int) + 1) * d2) = some p ∧
        (p.2.kind = Kind.wall ∨ isMonsterK p.2.kind = true))) →
      moveA fuel s b o d1 d2 = (s, false)) := by
  intro rest
  induction rest with
  | nil =>
    intro b cx cy s o fuel hInv hch hfuel
    obtain ⟨⟨a, hamem, hak, hax, hay, habnd⟩, -⟩ := id hch
    subst hax
    subst hay
    obtain ⟨f, rfl⟩ : ∃ f, fuel = f + 1 := ⟨fuel - 1, by omega⟩
    have hlb : lookupActor s b = some a := lookup_of_mem hInv.1 hamem
    simp only [List.length_nil, Nat.cast_zero, zero_add, one_mul]
    constructor
    · rintro ⟨hbnd, hemp⟩
      rw [← advance_cons hInv d1 d2 hamem (by simp), advance_nil]
      simp [moveA, hlb, hak, hbnd, hemp]
    · intro hB
      rcases hB with hoob | ⟨p, hp, hpk⟩
      · simp [moveA, hlb, hak, hoob]
      · by_cases hbnd : is_in_bounds s (a.x + d1) (a.y + d2) = true
        · rcases hpk with hpw | hpm
          · simp [moveA, hlb, hak, hbnd, hp, hpw]
          · have hpmem := get_actor_mem hp
            have hlp : lookupActor s p.1 = some p.2 :=
              lookup_of_mem hInv.1 (by simpa using hpmem.1)
            have hbp : b ≠ p.1 := by
              intro he
              have : (b, a) = p := idInj hInv.1 hamem (by simpa using hpmem.1)
                (by simpa using he)
              apply hd
              have hx := hpmem.2.1
              have hy := hpmem.2.2
              rw [← this] at hx hy
              constructor
              · linear_combination -hx
              · linear_combination -hy
            have hrefuse := monster_refuses_push f s p.1 b d1 d2 p.2 hlp hpm
              (Ne.symm (fun he => hbp he.symm))
            simp [moveA, hlb, hak, hbnd, hp, monsterK_ne_wall hpm, hrefuse]
        · have hoob : is_in_bounds s (a.x + d1) (a.y + d2) = false := by
            simpa using hbnd
          simp [moveA, hlb, hak, hoob]
  | cons b2 rest2 ih =>
    intro b cx cy s o fuel hInv hch hfuel
    obtain ⟨⟨a, hamem, hak, hax, hay, habnd⟩, htail⟩ := id hch
    subst hax
    subst hay
    obtain ⟨⟨a2, ha2mem, ha2k, ha2x, ha2y, ha2bnd⟩, -⟩ := id htail
    obtain ⟨f, rfl⟩ : ∃ f, fuel = f + 1 := ⟨fuel - 1, by omega⟩
    have hlb : lookupActor s b = some a := lookup_of_mem hInv.1 hamem
    have hg2 : get_actor s (a.x + d1) (a.y + d2) = some (b2, a2) := by
      have := get_actor_of_mem hInv.2 ha2mem
      rw [ha2x, ha2y] at this
      exact this
    have hexx : (a.x + d1) + ((rest2.length : Int) + 1) * d1 =
        a.x + (((b2 :: rest2).length : Int) + 1) * d1 := by
      simp only [List.length_cons]
      push_cast
      ring
    have hexy : (a.y + d2) + ((rest2.length : Int) + 1) * d2 =
        a.y + (((b2 :: rest2).length : Int) + 1) * d2 := by
      simp only [List.length_cons]
      push_cast
      ring
    have hbnin : b ∉ b2 :: rest2 := by
      intro hin
      obtain ⟨k, _, hkx, hky⟩ := chain_mem htail hInv.1 hamem hin
      simp only at hkx hky
      have e1 : ((k : Int) + 1) * d1 = 0 := by linear_combination -hkx
      have e2 : ((k : Int) + 1) * d2 = 0 := by linear_combination -hky
      have hk0 : ((k : Int) + 1) ≠ 0 := by omega
      apply hd
      constructor
      · rcases mul_eq_zero.mp e1 with h | h
        · exact absurd h hk0
        · exact h
      · rcases mul_eq_zero.mp e2 with h | h
        · exact absurd h hk0
        · exact h
    have ihspec := ih b2 (a.x + d1) (a.y + d2) s b f hInv htail (by
      simp only [List.length_cons] at hfuel
      omega)
    rw [hexx, hexy] at ihspec
    constructor
    · rintro ⟨hbnd, hemp⟩
      have hs1 : (moveA f s b2 b d1 d2).1 = advance (b2 :: rest2) d1 d2 s :=
        ihspec.1 ⟨hbnd, hemp⟩
      have hvac : get_actor (moveA f s b2 b d1 d2).1 (a.x + d1) (a.y + d2) =
          none := by
        rw [hs1]
        exact advance_vacates hd hInv htail
      rw [← advance_cons hInv d1 d2 hamem hbnin, ← hs1]
      simp [moveA, hlb, hak, ha2bnd, hg2, ha2k, hvac]
    · intro hB
      have hs1 : moveA f s b2 b d1 d2 = (s, false) := ihspec.2 hB
      simp [moveA, hlb, hak, ha2bnd, hg2, ha2k, hs1]

/-- C1: the Agent pushing a straight line of N Boxes. If the cell just
past the far end of the chain is in bounds and empty, all N boxes and the
Agent each shift by one cell in the push direction and the move returns
True; otherwise (past-the-end cell out of bounds, or holding a Wall or a
hostile — the chain's far end) no entity changes position and the move
returns False, the code's `Blocked`. -/
theorem c1_agent_pushes_box_chain (d1 d2 : Int) (s : Stage) (pid o : Nat)
    (pa : Actor) (bs : List Nat) (fuel : Nat) (hd : ¬(d1 = 0 ∧ d2 = 0))
    (hInv : Inv s) (hp : (pid, pa) ∈ s.actors) (hpk : pa.kind = Kind.player)
    (hch : Chain s d1 d2 (pa.x + d1) (pa.y + d2) bs) (hne : bs ≠ [])
    (hfuel : fuel ≥ bs.length + 2) :
    ((is_in_bounds s (pa.x + d1 + (bs.length : Int) * d1)
        (pa.y + d2 + (bs.length : Int) * d2) = true ∧
      get_actor s (pa.x + d1 + (bs.length : Int) * d1)
        (pa.y + d2 + (bs.length : Int) * d2) = none) →
      moveA fuel s pid o d1 d2 = (advance (pid :: bs) d1 d2 s, true)) ∧
    ((is_in_bounds s (pa.x + d1 + (bs.length : Int) * d1)
        (pa.y + d2 + (bs.length : Int) * d2) = false ∨
      (∃ p, get_actor s (pa.x + d1 + (bs.length : Int) * d1)
          (pa.y + d2 + (bs.length : Int) * d2) = some p ∧
        (p.2.kind = Kind.wall ∨ isMonsterK p.2.kind = true))) →
      moveA fuel s pid o d1 d2 = (s, false)) := by
  match bs, hne with
  | b1 :: rest, _ =>
    obtain ⟨⟨a1, ha1mem, ha1k, ha1x, ha1y, ha1bnd⟩, -⟩ := id hch
    obtain ⟨f, rfl⟩ : ∃ f, fuel = f + 1 := ⟨fuel - 1, by omega⟩
    have hlp : lookupActor s pid = some pa := lookup_of_mem hInv.1 hp
    have hg1 : get_actor s (pa.x + d1) (pa.y + d2) = some (b1, a1) := by
      have := get_actor_of_mem hInv.2 ha1mem
      rw [ha1x, ha1y] at this
      exact this
    have hcm := chain_move hd rest b1 (pa.x + d1) (pa.y + d2) s pid f hInv hch
      (by simp only [List.length_cons] at hfuel; omega)
    have hexx : (pa.x + d1) + ((rest.length : Int) + 1) * d1 =
        pa.x + d1 + (((b1 :: rest).length : Int)) * d1 := by
      simp only [List.length_cons]
      push_cast
      ring
    have hexy : (pa.y + d2) + ((rest.length : Int) + 1) * d2 =
        pa.y + d2 + (((b1 :: rest).length : Int)) * d2 := by
      simp only [List.length_cons]
      push_cast
      ring
    rw [hexx, hexy] at hcm
    have hpidnin : pid ∉ b1 :: rest := by
      intro hin
      obtain ⟨a', ha'mem, ha'k⟩ := chain_ids_box hch hin
      have : (pid, pa) = (pid, a') := idInj hInv.1 hp ha'mem rfl
      rw [Prod.mk.injEq] at this
      rw [this.2, ha'k] at hpk
      cases hpk
    constructor
    · rintro ⟨hbnd, hemp⟩
      have hs1 : (moveA f s b1 pid d1 d2).1 = advance (b1 :: rest) d1 d2 s :=
        hcm.1 ⟨hbnd, hemp⟩
      have hvac : get_actor (moveA f s b1 pid d1 d2).1 (pa.x + d1) (pa.y + d2) =
          none := by
        rw [hs1]
        exact advance_vacates hd hInv hch
      rw [← advance_cons hInv d1 d2 hp hpidnin, ← hs1]
      simp [moveA, hlp, hpk, ha1bnd, hg1, ha1k, hvac]
    · intro hB
      have hs1 : moveA f s b1 pid d1 d2 = (s, false) := hcm.2 hB
      simp [moveA, hlp, hpk, ha1bnd, hg1, ha1k, hs1, isMonsterK]

/-- The concrete stage for the C1 witness: the player at the origin
pushing two boxes toward the empty in-bounds cell `(3, 0)`. -/
def stageC1 : Stage :=
  ⟨20, 20,
   [(0, ⟨Kind.player, 0, 0, 1, 1, 5, 0, false⟩),
    (1, ⟨Kind.box, 1, 0, 1, 1, 5, 0, false⟩),
    (2, ⟨Kind.box, 2, 0, 1, 1, 5, 0, false⟩)],
   [], []⟩

theorem c1_witness :
    moveA 10 stageC1 0 0 1 0 = (advance [0, 1, 2] 1 0 stageC1, true) := by
  have h := (c1_agent_pushes_box_chain 1 0 stageC1 0 0
    ⟨Kind.player, 0, 0, 1, 1, 5, 0, false⟩ [1, 2] 10 (by decide) (by decide)
    (by decide) rfl
    ⟨⟨⟨Kind.box, 1, 0, 1, 1, 5, 0, false⟩, by decide, rfl, by decide, by decide,
       by decide⟩,
     ⟨⟨Kind.box, 2, 0, 1, 1, 5, 0, false⟩, by decide, rfl, by decide, by decide,
       by decide⟩, trivial⟩
    (by decide) (by decide)).1 ⟨by decide, by decide⟩
  exact h

end WW
